import Mathlib

/-!
Verification of the data-normalisation and KPI-aggregation pipeline of
`src/Dashboard/uhn_dashboard.py` (functions `load_csv_data`,
`_normalise_access_df`, `_latest_snapshot`, `_zone_identifier`,
`_prepare_access_data`, `_prepare_service_data`).

The pandas tables are embedded shallowly: a table is a list of column names
plus a list of rows, a row binds column names to cells, and a cell is a text
value, a finite numeric value (a rational, standing for the exact value of the
float64/Int64 cell), or a missing value (NaN/NA).  A function returning
`Option` models fallible pandas code: `none` stands for a raised exception
(`KeyError`, `ValueError`, `FileNotFoundError`, ...).

Modelling notes, recorded once here:
* Numeric string parsing (`pd.to_numeric`, Python `float`) is modelled for
  plain decimal numerals with optional sign and fraction; scientific notation
  and exotic spellings are treated as unparseable.  No verified claim depends
  on those forms.
* `astype(str)` applied to a numeric cell is modelled by `numRepr`; the claims
  only exercise it on text and missing cells (missing becomes the literal
  string "nan", as in pandas).
* pandas emits group-by groups sorted by key and outer merges sorted by key;
  this embedding keeps deterministic but unsorted orders.  No claim below
  depends on the relative order of distinct keys.
* `groupby(...)["year"].idxmax()` on a group whose `year` values are all NA
  yields NA (pandas <= 2.0) and the subsequent `df.loc[idx]` raises `KeyError`
  (pandas >= 2.1 raises from `idxmax` itself); both are modelled as `none`.
* float64 arithmetic in `_prepare_service_data` is modelled by `PFloat`:
  exact rational arithmetic extended with +inf, -inf and NaN, which is exact
  for the zero-denominator / missing-value behaviour under verification.
-/

namespace UHN

/-- A cell of an in-memory table: a text value, a finite numeric value, or a
missing value (pandas NaN / NA). -/
inductive Cell where
  | str (s : String)
  | num (q : ℚ)
  | na
deriving DecidableEq

/-- A row binds column names to cells.  A name absent from a row denotes a
missing value (as produced by an outer merge for the unmatched side). -/
abbrev Row := List (String × Cell)

/-- A table: named columns and rows. -/
structure Table where
  cols : List String
  rows : List Row
deriving DecidableEq

/-- Value of column `c` in row `r`; an unbound name reads as missing. -/
def cellVal (r : Row) (c : String) : Cell :=
  (r.lookup c).getD Cell.na

/-- Python `row.get(c)`: `none` when the label is absent from the row. -/
def rowGet (r : Row) (c : String) : Option Cell :=
  r.lookup c

/-- Rebind column `c` of row `r` to `v` (assignment to a DataFrame column). -/
def setCell (r : Row) (c : String) (v : Cell) : Row :=
  r.filter (fun p => p.1 ≠ c) ++ [(c, v)]

/-- Strip leading and trailing whitespace from a character list (the list
form of Python `strip` / pandas `str.strip`; `String.trim` itself does not
reduce in the kernel, so the list form is used throughout). -/
def trimChars (cs : List Char) : List Char :=
  ((cs.dropWhile Char.isWhitespace).reverse.dropWhile Char.isWhitespace).reverse

/-- ASCII lowercasing of a string, character by character (the semantics of
`str.lower()` on the ASCII inputs the pipeline sees). -/
def lowerAscii (s : String) : String :=
  String.mk (s.toList.map Char.toLower)

/-- Numeric value of the digit list `cs` (all elements assumed digits). -/
def digitsToNat (cs : List Char) : Nat :=
  cs.foldl (fun a ch => a * 10 + (ch.toNat - 48)) 0

/-- Parse an unsigned decimal numeral, with at most one decimal point. -/
def parseUnsignedRat (cs : List Char) : Option ℚ :=
  if cs.count '.' = 0 then
    if cs ≠ [] ∧ cs.all Char.isDigit then some ((digitsToNat cs : ℚ)) else none
  else if cs.count '.' = 1 then
    let ip := cs.takeWhile (fun ch => ch ≠ '.')
    let fp := (cs.dropWhile (fun ch => ch ≠ '.')).tail
    if (ip ≠ [] ∨ fp ≠ []) ∧ ip.all Char.isDigit ∧ fp.all Char.isDigit then
      some ((digitsToNat ip : ℚ) + (digitsToNat fp : ℚ) / ((10 : ℚ) ^ fp.length))
    else none
  else none

/-- Parse a decimal numeral with optional sign and surrounding whitespace,
as accepted by `pd.to_numeric` / Python `float` (decimal forms only). -/
def parseRat (s : String) : Option ℚ :=
  match trimChars s.toList with
  | [] => none
  | '-' :: rest => (parseUnsignedRat rest).map (fun q => -q)
  | '+' :: rest => parseUnsignedRat rest
  | cs => parseUnsignedRat cs

/-- `pd.to_numeric(cell, errors="coerce")`: numbers pass through, parseable
text becomes a number, anything else becomes missing. -/
def toNumericCell : Cell → Cell
  | Cell.str s =>
    match parseRat s with
    | some q => Cell.num q
    | none => Cell.na
  | Cell.num q => Cell.num q
  | Cell.na => Cell.na

/-- Textual form of a numeric cell, used by `astype(str)` on numbers.  The
verified claims only exercise `astype(str)` on text and missing cells. -/
def numRepr (q : ℚ) : String :=
  if q.den = 1 then toString q.num else toString q.num ++ "/" ++ toString q.den

/-- `astype(str)` on one cell: text is unchanged, numbers are rendered, and a
missing value becomes the literal string "nan" (pandas renders NaN so). -/
def astypeStrCell : Cell → Cell
  | Cell.str s => Cell.str s
  | Cell.num q => Cell.str (numRepr q)
  | Cell.na => Cell.str "nan"

/-- `.str.strip()` on one cell. -/
def stripCell : Cell → Cell
  | Cell.str s => Cell.str (String.mk (trimChars s.toList))
  | c => c

/-- Coercing the `year` column to the nullable integer dtype `Int64`:
`to_numeric` first, then `astype("Int64")`, which raises (here: `none`) on a
numeric value that is not an integer. -/
def yearToInt64 (c : Cell) : Option Cell :=
  match toNumericCell c with
  | Cell.num q => if q.den = 1 then some (Cell.num q) else none
  | _ => some Cell.na

/-- The percentage columns selected by `_normalise_access_df`: every column
whose name starts with the source prefix and ends with `_pct`, plus the
explicitly named extra percentage columns that are present. -/
def pctColsOf (cols : List String) (pfx : String) (extraPctCols : List String) : List String :=
  cols.filter (fun c => pfx.toList.isPrefixOf c.toList && ("_pct".toList).isSuffixOf c.toList)
    ++ extraPctCols.filter (fun c => c ∈ cols)

/-- Apply `to_numeric` coercion to the listed columns of one row.  The source
loops over the columns of the whole frame; since each column assignment is
elementwise, the row-major order used here produces the same table. -/
def coerceRow (pcs : List String) (r : Row) : Row :=
  pcs.foldl (fun acc c => setCell acc c (toNumericCell (cellVal acc c))) r

/-- The `zone` cleaning step of `_normalise_access_df` on one row:
`frame["zone"].astype(str).str.strip()`, when a `zone` column exists. -/
def normZone (cols : List String) (r : Row) : Row :=
  if "zone" ∈ cols then setCell r "zone" (stripCell (astypeStrCell (cellVal r "zone"))) else r

/-- The `country` cleaning step of `_normalise_access_df` on one row. -/
def normCountry (cols : List String) (r : Row) : Row :=
  if "country" ∈ cols then setCell r "country" (stripCell (astypeStrCell (cellVal r "country"))) else r

/-- The `year` coercion step of `_normalise_access_df` on one row; `none`
models the `astype("Int64")` failure on a non-integral numeric year. -/
def normYear (cols : List String) (r : Row) : Option Row :=
  if "year" ∈ cols then (yearToInt64 (cellVal r "year")).map (fun v => setCell r "year" v)
  else some r

/-- One row of `_normalise_access_df`: trim the `zone` and `country` text
(after `astype(str)`), coerce `year` to `Int64`, coerce percentage columns.
All the column operations of the source are elementwise, so they are applied
here row by row, in the source's column order. -/
def normaliseRow (cols : List String) (pcs : List String) (r : Row) : Option Row :=
  (normYear cols (normCountry cols (normZone cols r))).map (coerceRow pcs)

/-- Traverse rows with a fallible per-row transform; any failure aborts the
whole normalisation (the pandas call would raise). -/
def mapRowsOpt (f : Row → Option Row) : List Row → Option (List Row)
  | [] => some []
  | r :: rs =>
    match f r, mapRowsOpt f rs with
    | some r2, some rest => some (r2 :: rest)
    | _, _ => none

/-- `_normalise_access_df`: clean up access data — trim text, coerce numeric
percentage columns, ensure `year` is numeric.  Column names are not changed. -/
def normalise_access_df (df : Table) (pfx : String) (extraPctCols : List String) : Option Table :=
  (mapRowsOpt (normaliseRow df.cols (pctColsOf df.cols pfx extraPctCols)) df.rows).map
    (fun rs => { cols := df.cols, rows := rs })

/-- The grouping keys of `_latest_snapshot`: the members of `(country, zone)`
present among the columns, falling back to `["zone"]` when neither is (in
which case the subsequent group-by raises). -/
def snapKeys (cols : List String) : List String :=
  let ks := (["country", "zone"]).filter (fun c => c ∈ cols)
  if ks.isEmpty then ["zone"] else ks

/-- Key tuple of a row: the cells of the key columns. -/
def keyOf (keys : List String) (r : Row) : List Cell :=
  keys.map (fun k => cellVal r k)

/-- The `year` value of a row, when it is a non-missing number. -/
def yearNum (r : Row) : Option ℚ :=
  match cellVal r "year" with
  | Cell.num q => some q
  | _ => none

/-- `idxmax` over the `year` values of a group: the first row attaining the
maximum non-missing year (pandas `idxmax` returns the first maximiser), or
`none` when every `year` in the group is missing. -/
def argmaxYear : List Row → Option (ℚ × Row)
  | [] => none
  | r :: rest =>
    match yearNum r, argmaxYear rest with
    | none, best => best
    | some q, none => some (q, r)
    | some q, some (qb, rb) => if qb > q then some (qb, rb) else some (q, r)

/-- Rows whose key cells are all non-missing; `groupby` (with its default
`dropna=True`) silently drops the others. -/
def validKeyRows (keys : List String) (rows : List Row) : List Row :=
  rows.filter (fun r => (keyOf keys r).all (fun c => c ≠ Cell.na))

/-- The rows of one key group, in input order. -/
def groupRows (keys : List String) (rows : List Row) (k : List Cell) : List Row :=
  rows.filter (fun r => keyOf keys r = k)

/-- Select, for each key of `ks`, the `idxmax` row of its group; `none` as
soon as one group has no usable year (the pandas call raises). -/
def pickLatest (keys : List String) (rows : List Row) : List (List Cell) → Option (List Row)
  | [] => some []
  | k :: ks =>
    match argmaxYear (groupRows keys rows k), pickLatest keys rows ks with
    | some p, some rest => some (p.2 :: rest)
    | _, _ => none

/-- `drop_duplicates(keys, keep="last")`: keep each row whose key does not
recur later, preserving input order.  Missing key cells compare equal here,
exactly as pandas `duplicated` treats NaN. -/
def dropDupKeepLast (keys : List String) : List Row → List Row
  | [] => []
  | r :: rs =>
    if rs.any (fun r2 => keyOf keys r2 = keyOf keys r) then dropDupKeepLast keys rs
    else r :: dropDupKeepLast keys rs

/-- Row selection of `_latest_snapshot`: group by the keys and take the
`idxmax`-by-`year` row of each group when a `year` column exists, otherwise
`drop_duplicates(keys, keep="last")`.  `none` models a raised exception:
a key column absent from the table, or a group whose years are all missing. -/
def selectLatest (t : Table) : Option (List Row) :=
  let keys := snapKeys t.cols
  if keys.any (fun c => c ∉ t.cols) then none
  else if "year" ∈ t.cols then
    let rows := validKeyRows keys t.rows
    pickLatest keys rows ((rows.map (keyOf keys)).dedup)
  else some (dropDupKeepLast keys t.rows)

/-- Apply a rename map to one column name. -/
def applyRename (rm : List (String × String)) (c : String) : String :=
  (rm.lookup c).getD c

/-- The kept columns of `_latest_snapshot`: keys, `year`, the rename-map
domain, and the explicitly requested extra columns — restricted to the
columns actually present.  The source iterates a Python set here; this
embedding fixes the table's column order, which no claim depends on. -/
def keepColsList (cols keys : List String) (rm : List (String × String))
    (additional : List String) : List String :=
  cols.filter (fun c => c ∈ keys ∨ c = "year" ∨ c ∈ rm.map Prod.fst ∨ c ∈ additional)

/-- Project a selected row to the kept columns and rename them. -/
def projectRow (avail : List String) (rm : List (String × String)) (r : Row) : Row :=
  avail.map (fun c => (applyRename rm c, cellVal r c))

/-- `_latest_snapshot`: most recent record per `(country, zone)` key, with
columns restricted and renamed. -/
def latest_snapshot (df : Table) (rm : List (String × String))
    (additional : List String) : Option Table :=
  (selectLatest df).map (fun sel =>
    let avail := keepColsList df.cols (snapKeys df.cols) rm additional
    { cols := avail.map (applyRename rm), rows := sel.map (projectRow avail rm) })

/-- The spec-side count of distinct snapshot keys present in a table. -/
def distinctKeyCount (t : Table) : Nat :=
  ((t.rows.map (keyOf (snapKeys t.cols))).dedup).length

/-- The merge keys of `_prepare_access_data`: the members of
`(country, zone)` present in both snapshot tables, falling back to
`["zone"]` when the intersection is empty (in which case `merge` raises if a
side lacks the `zone` column). -/
def mergeKeysOf (lc rc : List String) : List String :=
  let mk := (["country", "zone"]).filter (fun c => c ∈ lc ∧ c ∈ rc)
  if mk.isEmpty then ["zone"] else mk

/-- Do the key cells of a left and a right row agree?  pandas `merge` matches
missing keys to missing keys, as does cell equality here. -/
def keysMatch (keys : List String) (lr rr : Row) : Bool :=
  keys.all (fun k => cellVal lr k = cellVal rr k)

/-- A merged row built from a left row and an optional matching right row.
Left columns keep their names; right non-key columns that collide with a
left column get the `_dup` suffix (`suffixes=("", "_dup")`). -/
def combineRow (lc rcNonKey : List String) (lr : Row) (rrOpt : Option Row) : Row :=
  lc.map (fun c => (c, cellVal lr c))
    ++ rcNonKey.map (fun c =>
      (if c ∈ lc then c ++ "_dup" else c,
        match rrOpt with
        | some rr => cellVal rr c
        | none => Cell.na))

/-- A merged row built from an unmatched right row of the outer merge: key
columns carry the right key, other left columns are missing. -/
def rightOnlyRow (lc rcNonKey keys : List String) (rr : Row) : Row :=
  lc.map (fun c => (c, if c ∈ keys then cellVal rr c else Cell.na))
    ++ rcNonKey.map (fun c => (if c ∈ lc then c ++ "_dup" else c, cellVal rr c))

/-- `water_latest.merge(sewer_latest, on=merge_keys, how="outer",
suffixes=("", "_dup"))`.  pandas sorts an outer merge by key; this embedding
keeps left rows (each expanded by its right matches) followed by unmatched
right rows, an order no claim depends on. -/
def mergeOuter (L R : Table) : Option Table :=
  let keys := mergeKeysOf L.cols R.cols
  if keys.any (fun c => c ∉ L.cols ∨ c ∉ R.cols) then none
  else
    let rcNonKey := R.cols.filter (fun c => c ∉ keys)
    let outCols := L.cols ++ rcNonKey.map (fun c => if c ∈ L.cols then c ++ "_dup" else c)
    let leftRows := (L.rows.map (fun lr =>
      let ms := R.rows.filter (fun rr => keysMatch keys lr rr)
      if ms.isEmpty then [combineRow L.cols rcNonKey lr none]
      else ms.map (fun rr => combineRow L.cols rcNonKey lr (some rr)))).flatten
    let rightRows := (R.rows.filter (fun rr => ¬ L.rows.any (fun lr => keysMatch keys lr rr))).map
      (rightOnlyRow L.cols rcNonKey keys)
    some { cols := outCols, rows := leftRows ++ rightRows }

/-- The merge step of `_prepare_access_data` (outer merge followed by the
`country_dup` fill-and-drop branch, which runs only when a duplicated
`country` column appeared and `country` is not a merge key). -/
def mergeStep (L R : Table) : Option Table := do
  let t ← mergeOuter L R
  let keys := mergeKeysOf L.cols R.cols
  if "country_dup" ∈ t.cols ∧ "country" ∉ keys then
    if "country" ∈ t.cols then
      some { cols := t.cols.filter (fun c => c ≠ "country_dup"),
             rows := t.rows.map (fun r =>
               let v := match cellVal r "country" with
                 | Cell.na => cellVal r "country_dup"
                 | w => w
               setCell (r.filter (fun p => p.1 ≠ "country_dup")) "country" v) }
    else none
  else some t

/-- Row-wise `mean(axis=1, skipna=True)` of the two safely-managed columns:
both numbers give the average, one number gives that number, both missing
give missing.  A text cell would make the pandas mean raise (`none`). -/
def meanCell2 : Cell → Cell → Option Cell
  | Cell.str _, _ => none
  | _, Cell.str _ => none
  | Cell.num x, Cell.num y => some (Cell.num ((x + y) / 2))
  | Cell.num x, Cell.na => some (Cell.num x)
  | Cell.na, Cell.num y => some (Cell.num y)
  | Cell.na, Cell.na => some Cell.na

/-- Append the `safeAccess` cell to every row. -/
def safeAccessRows : List Row → Option (List Row)
  | [] => some []
  | r :: rs =>
    match meanCell2 (cellVal r "water_safely_pct") (cellVal r "sewer_safely_pct"),
        safeAccessRows rs with
    | some v, some rest => some (setCell r "safeAccess" v :: rest)
    | _, _ => none

/-- The `safeAccess` assignment of `_prepare_access_data`; selecting the two
source columns raises (`none`) when either is absent. -/
def addSafeAccess (t : Table) : Option Table :=
  if "water_safely_pct" ∈ t.cols ∧ "sewer_safely_pct" ∈ t.cols then
    (safeAccessRows t.rows).map (fun rs => { cols := t.cols ++ ["safeAccess"], rows := rs })
  else none

/-- Total comparison of cells used for `sort_values`: missing sorts last; a
text/number comparison would raise in pandas and is ordered arbitrarily here
(it never occurs after normalisation). -/
def cellOrd : Cell → Cell → Ordering
  | Cell.na, Cell.na => Ordering.eq
  | Cell.na, _ => Ordering.gt
  | _, Cell.na => Ordering.lt
  | Cell.str a, Cell.str b => compare a b
  | Cell.num a, Cell.num b => if a < b then Ordering.lt else if a = b then Ordering.eq else Ordering.gt
  | Cell.str _, Cell.num _ => Ordering.lt
  | Cell.num _, Cell.str _ => Ordering.gt

/-- Lexicographic row comparison over the sort columns. -/
def rowOrd (cs : List String) (r1 r2 : Row) : Ordering :=
  match cs with
  | [] => Ordering.eq
  | c :: rest =>
    match cellOrd (cellVal r1 c) (cellVal r2 c) with
    | Ordering.eq => rowOrd rest r1 r2
    | o => o

/-- Insert a row into a sorted list of rows. -/
def insertSorted (cs : List String) (r : Row) : List Row → List Row
  | [] => [r]
  | x :: xs => if rowOrd cs r x = Ordering.gt then x :: insertSorted cs r xs else r :: x :: xs

/-- `sort_values` over the given columns (insertion sort; pandas uses an
unstable quicksort, and no claim depends on the order of tied rows). -/
def sortRowsBy (cs : List String) (rows : List Row) : List Row :=
  rows.foldr (insertSorted cs) []

/-- Truncation toward zero, as Python `int(float)`. -/
def truncQ (q : ℚ) : Int :=
  if 0 ≤ q then q.floor else -((-q).floor)

/-- Python `float(x) if pd.notna(x) else None` applied to `row.get(c)`.
Outer `none` models a raised `ValueError` (unparseable text); the inner
option is the Python `None`-or-value result. -/
def pyFloat : Option Cell → Option (Option ℚ)
  | none => some none
  | some Cell.na => some none
  | some (Cell.num q) => some (some q)
  | some (Cell.str s) =>
    match parseRat s with
    | some q => some (some q)
    | none => none

/-- Python `int` on a string: optional sign and digits only. -/
def parseIntStr (s : String) : Option Int :=
  match trimChars s.toList with
  | [] => none
  | '-' :: cs => if cs ≠ [] ∧ cs.all Char.isDigit then some (-(digitsToNat cs : Int)) else none
  | '+' :: cs => if cs ≠ [] ∧ cs.all Char.isDigit then some ((digitsToNat cs : Int)) else none
  | cs => if cs.all Char.isDigit then some ((digitsToNat cs : Int)) else none

/-- Python `int(x) if pd.notna(x) else None` applied to `row.get(c)`. -/
def pyInt : Option Cell → Option (Option Int)
  | none => some none
  | some Cell.na => some none
  | some (Cell.num q) => some (some (truncQ q))
  | some (Cell.str s) => (parseIntStr s).map (fun n => some n)

/-- Python truthiness of a cell fed to `_zone_identifier`: an absent label
(`None`), an empty string and the number zero are falsy (`none`); a missing
cell is the truthy float NaN, which formats as "nan"; other values format as
themselves. -/
def pyTruthyStr : Option Cell → Option String
  | none => none
  | some (Cell.str s) => if s = "" then none else some s
  | some (Cell.num q) => if q = 0 then none else some (numRepr q)
  | some Cell.na => some "nan"

/-- Characters kept by the slug regex `[^a-z0-9]+` after lowercasing. -/
def isSlugChar (ch : Char) : Bool :=
  ('a' ≤ ch && ch ≤ 'z') || ('0' ≤ ch && ch ≤ '9')

/-- `re.sub(r"[^a-z0-9]+", "-", ...)`: replace every maximal run of
non-alphanumeric characters by a single hyphen.  The flag records whether the
scanner is inside a run whose hyphen was already emitted. -/
def squashRunsAux : List Char → Bool → List Char
  | [], _ => []
  | ch :: rest, inRun =>
    if isSlugChar ch then ch :: squashRunsAux rest false
    else if inRun then squashRunsAux rest true
    else '-' :: squashRunsAux rest true

/-- Python `.strip("-")`: remove leading and trailing hyphens. -/
def stripDashes (cs : List Char) : List Char :=
  ((cs.dropWhile (fun ch => ch = '-')).reverse.dropWhile (fun ch => ch = '-')).reverse

/-- Base string fed to the slug regex in `_zone_identifier`:
`f"\x7bcountry or 'na'\x7d-\x7bzone or 'zone'\x7d".lower()`.  `none` stands
for a falsy Python argument (`None`); Python's `or` also replaces an empty
string by the default. -/
def slugBase (country zone : Option String) : String :=
  let c := match country with
    | none => "na"
    | some s => if s = "" then "na" else s
  let z := match zone with
    | none => "zone"
    | some s => if s = "" then "zone" else s
  lowerAscii (c ++ "-" ++ z)

/-- `_zone_identifier`: slug of a country/zone pair. -/
def zone_identifier (country zone : Option String) : String :=
  let res := String.mk (stripDashes (squashRunsAux (slugBase country zone).toList false))
  if res = "" then "zone" else res

/-- One element of the `zones` list built by `_prepare_access_data`. -/
structure ZoneRecord where
  id : String
  name : Option Cell
  country : Option Cell
  safeAccess : Option ℚ
  water_safely_pct : Option ℚ
  sewer_safely_pct : Option ℚ
  water_year : Option Int
  sewer_year : Option Int
deriving DecidableEq

/-- Build one zone record from a merged row; `none` models a raised
conversion error (never reached on normalised data). -/
def recordOfRow (r : Row) : Option ZoneRecord := do
  let sa ← pyFloat (rowGet r "safeAccess")
  let wp ← pyFloat (rowGet r "water_safely_pct")
  let sp ← pyFloat (rowGet r "sewer_safely_pct")
  let wy ← pyInt (rowGet r "water_year")
  let sy ← pyInt (rowGet r "sewer_year")
  some { id := zone_identifier (pyTruthyStr (rowGet r "country")) (pyTruthyStr (rowGet r "zone")),
         name := rowGet r "zone",
         country := rowGet r "country",
         safeAccess := sa, water_safely_pct := wp, sewer_safely_pct := sp,
         water_year := wy, sewer_year := sy }

/-- Build all zone records. -/
def recordsOf : List Row → Option (List ZoneRecord)
  | [] => some []
  | r :: rs =>
    match recordOfRow r, recordsOf rs with
    | some x, some xs => some (x :: xs)
    | _, _ => none

/-- Rename map passed for the water snapshot in `_prepare_access_data`. -/
def waterRenameMap : List (String × String) :=
  [("year", "water_year"), ("w_safely_managed_pct", "water_safely_pct"),
   ("w_basic_pct", "water_basic_pct"), ("w_limited_pct", "water_limited_pct"),
   ("w_unimproved_pct", "water_unimproved_pct"), ("surface_water_pct", "water_surface_pct"),
   ("municipal_coverage", "water_municipal_coverage")]

/-- Additional kept columns for the water snapshot. -/
def waterAdditional : List String :=
  ["municipal_coverage", "w_safely_managed", "w_basic", "w_limited", "w_unimproved", "surface_water"]

/-- Rename map passed for the sewer snapshot in `_prepare_access_data`. -/
def sewerRenameMap : List (String × String) :=
  [("year", "sewer_year"), ("s_safely_managed_pct", "sewer_safely_pct"),
   ("s_basic_pct", "sewer_basic_pct"), ("s_limited_pct", "sewer_limited_pct"),
   ("s_unimproved_pct", "sewer_unimproved_pct"), ("open_def_pct", "sewer_open_def_pct")]

/-- Additional kept columns for the sewer snapshot. -/
def sewerAdditional : List String :=
  ["s_safely_managed", "s_basic", "s_limited", "s_unimproved", "open_def"]

/-- `load_csv_data`: both the water and the sewer CSV must exist on disk; a
missing file raises `FileNotFoundError` (`none`).  An argument of
`some t` stands for a present file parsed into table `t`. -/
def load_csv_data (waterFile sewerFile : Option Table) : Option (Table × Table) :=
  match waterFile, sewerFile with
  | some w, some s => some (w, s)
  | _, _ => none

/-- `_prepare_access_data`, restricted to its `zones` output (the zone-level
summaries; the other dictionary entries are the intermediate tables built
below). -/
def prepare_access_data (waterFile sewerFile : Option Table) : Option (List ZoneRecord) := do
  let ws ← load_csv_data waterFile sewerFile
  let waterDf ← normalise_access_df ws.1 "w_" ["municipal_coverage"]
  let sewerDf ← normalise_access_df ws.2 "s_" []
  let waterLatest ← latest_snapshot waterDf waterRenameMap waterAdditional
  let sewerLatest ← latest_snapshot sewerDf sewerRenameMap sewerAdditional
  let merged ← mergeStep waterLatest sewerLatest
  let withSafe ← addSafeAccess merged
  let sortCols := (["country", "zone"]).filter (fun c => c ∈ withSafe.cols)
  recordsOf (sortRowsBy sortCols withSafe.rows)

/-- float64 values as produced by the service-data arithmetic: an exact
finite value, the two infinities, or NaN.  Finite arithmetic is modelled
exactly (the claims under verification concern the zero-denominator and
missing-value behaviour, not rounding). -/
inductive PFloat where
  | fin (q : ℚ)
  | pinf
  | ninf
  | nan
deriving DecidableEq

/-- IEEE-style addition. -/
def PFloat.add : PFloat → PFloat → PFloat
  | PFloat.nan, _ => PFloat.nan
  | _, PFloat.nan => PFloat.nan
  | PFloat.fin a, PFloat.fin b => PFloat.fin (a + b)
  | PFloat.pinf, PFloat.ninf => PFloat.nan
  | PFloat.ninf, PFloat.pinf => PFloat.nan
  | PFloat.pinf, _ => PFloat.pinf
  | _, PFloat.pinf => PFloat.pinf
  | PFloat.ninf, _ => PFloat.ninf
  | _, PFloat.ninf => PFloat.ninf

/-- IEEE-style multiplication. -/
def PFloat.mul : PFloat → PFloat → PFloat
  | PFloat.nan, _ => PFloat.nan
  | _, PFloat.nan => PFloat.nan
  | PFloat.fin a, PFloat.fin b => PFloat.fin (a * b)
  | PFloat.pinf, PFloat.pinf => PFloat.pinf
  | PFloat.pinf, PFloat.ninf => PFloat.ninf
  | PFloat.ninf, PFloat.pinf => PFloat.ninf
  | PFloat.ninf, PFloat.ninf => PFloat.pinf
  | PFloat.pinf, PFloat.fin b => if 0 < b then PFloat.pinf else if b < 0 then PFloat.ninf else PFloat.nan
  | PFloat.fin a, PFloat.pinf => if 0 < a then PFloat.pinf else if a < 0 then PFloat.ninf else PFloat.nan
  | PFloat.ninf, PFloat.fin b => if 0 < b then PFloat.ninf else if b < 0 then PFloat.pinf else PFloat.nan
  | PFloat.fin a, PFloat.ninf => if 0 < a then PFloat.ninf else if a < 0 then PFloat.pinf else PFloat.nan

/-- IEEE-style division: a nonzero value divided by zero is a signed
infinity, zero divided by zero is NaN (numpy emits a warning but no error). -/
def PFloat.div : PFloat → PFloat → PFloat
  | PFloat.nan, _ => PFloat.nan
  | _, PFloat.nan => PFloat.nan
  | PFloat.fin a, PFloat.fin b =>
    if b = 0 then (if 0 < a then PFloat.pinf else if a < 0 then PFloat.ninf else PFloat.nan)
    else PFloat.fin (a / b)
  | PFloat.fin _, PFloat.pinf => PFloat.fin 0
  | PFloat.fin _, PFloat.ninf => PFloat.fin 0
  | PFloat.pinf, PFloat.fin b => if b < 0 then PFloat.ninf else PFloat.pinf
  | PFloat.ninf, PFloat.fin b => if b < 0 then PFloat.pinf else PFloat.ninf
  | _, PFloat.pinf => PFloat.nan
  | _, PFloat.ninf => PFloat.nan

/-- A raw cell of `Service_data.csv` read as float64: a number or NaN. -/
def toPF : Option ℚ → PFloat
  | none => PFloat.nan
  | some q => PFloat.fin q

/-- One row of `Service_data.csv`, restricted to the columns entering the
`water_quality_rate` metric and the period key (month/year combine into the
`date` period key of the source). -/
structure ServiceRow where
  year : Int
  month : Int
  test_passed_chlorine : Option ℚ
  tests_conducted_chlorine : Option ℚ
  tests_passed_ecoli : Option ℚ
  test_conducted_ecoli : Option ℚ
deriving DecidableEq

/-- The derived metric of `_prepare_service_data`:
`(passed_chlorine / conducted_chlorine * 100 + passed_ecoli / conducted_ecoli * 100) / 2`. -/
def water_quality_rate (r : ServiceRow) : PFloat :=
  PFloat.div
    (PFloat.add
      (PFloat.mul (PFloat.div (toPF r.test_passed_chlorine) (toPF r.tests_conducted_chlorine))
        (PFloat.fin 100))
      (PFloat.mul (PFloat.div (toPF r.tests_passed_ecoli) (toPF r.test_conducted_ecoli))
        (PFloat.fin 100)))
    (PFloat.fin 2)

/-- pandas `mean` with `skipna=True`: drop the NaN values, then sum and
divide by the count; the mean of an empty selection is NaN.  Infinities are
not dropped. -/
def meanSkipna (xs : List PFloat) : PFloat :=
  let vs := xs.filter (fun x => x ≠ PFloat.nan)
  if vs.isEmpty then PFloat.nan
  else PFloat.div (vs.foldl PFloat.add (PFloat.fin 0)) (PFloat.fin (vs.length : ℚ))

/-- The `time_series` aggregation of `_prepare_service_data` for the
`water_quality_rate` column: the group-by-date mean of the rate over the rows
of one period.  (Sorting by date first does not change a per-period mean.) -/
def time_series_quality (rows : List ServiceRow) (y m : Int) : PFloat :=
  meanSkipna ((rows.filter (fun r => r.year = y ∧ r.month = m)).map water_quality_rate)

/-- Spec-side recursive maximum of a list of rationals. -/
def maxQ : List ℚ → Option ℚ
  | [] => none
  | q :: qs =>
    match maxQ qs with
    | none => some q
    | some m => some (max q m)

/-- Spec-side mean of the non-null values among two optional numbers. -/
def omeanQ : Option ℚ → Option ℚ → Option ℚ
  | some x, some y => some ((x + y) / 2)
  | some x, none => some x
  | none, some y => some y
  | none, none => none

/-- Spec-side numeric reading of a cell: a number, or nothing. -/
def cellQ : Cell → Option ℚ
  | Cell.num q => some q
  | _ => none

/-- Concrete table: one key whose years are 2019, 2022, 2021 (the max-year
selection example of the spec). -/
def tableMaxYearExample : Table :=
  ⟨["zone", "year"],
   [[("zone", Cell.str "a"), ("year", Cell.num 2019)],
    [("zone", Cell.str "a"), ("year", Cell.num 2022)],
    [("zone", Cell.str "a"), ("year", Cell.num 2021)]]⟩

/-- Concrete table: a single key whose only `year` value is missing. -/
def tableAllNaYear : Table :=
  ⟨["zone", "year"], [[("zone", Cell.str "a"), ("year", Cell.na)]]⟩

/-- Concrete table: two keys, one of them with two year values. -/
def tableTwoKeys : Table :=
  ⟨["zone", "year"],
   [[("zone", Cell.str "a"), ("year", Cell.num 2020)],
    [("zone", Cell.str "b"), ("year", Cell.num 2021)],
    [("zone", Cell.str "a"), ("year", Cell.num 2022)]]⟩

/-- Concrete table: a (country, zone) key appearing twice, both years missing. -/
def tableAllNaYearPair : Table :=
  ⟨["country", "zone", "year"],
   [[("country", Cell.str "X"), ("zone", Cell.str "a"), ("year", Cell.na)],
    [("country", Cell.str "X"), ("zone", Cell.str "a"), ("year", Cell.na)]]⟩

/-- Concrete table: one key with a usable year next to one without any. -/
def tableMixedNaYear : Table :=
  ⟨["zone", "year"],
   [[("zone", Cell.str "g"), ("year", Cell.num 2020)],
    [("zone", Cell.str "b"), ("year", Cell.na)]]⟩

/-- Concrete water CSV of the reconciliation-mean example (70 on the water
side). -/
def waterMean70 : Table :=
  ⟨["country", "zone", "year", "w_safely_managed_pct"],
   [[("country", Cell.str "X"), ("zone", Cell.str "Z"), ("year", Cell.num 2020),
     ("w_safely_managed_pct", Cell.num 70)]]⟩

/-- Concrete sewer CSV of the reconciliation-mean example (sewer value
missing, exercising the one-sided mean). -/
def sewerMeanNa : Table :=
  ⟨["country", "zone", "year", "s_safely_managed_pct"],
   [[("country", Cell.str "X"), ("zone", Cell.str "Z"), ("year", Cell.num 2020),
     ("s_safely_managed_pct", Cell.na)]]⟩

/-- Concrete service row: one chlorine test passed, zero conducted. -/
def serviceRowZeroDen : ServiceRow := ⟨2024, 1, some 1, some 0, some 1, some 1⟩

/-- Concrete raw table with a prefixed percentage column. -/
def tablePrefixedPct : Table :=
  ⟨["zone", "w_x_pct"], [[("zone", Cell.str "a"), ("w_x_pct", Cell.str "12")]]⟩

/-- Concrete water CSV of the end-to-end scenario: Lilongwe 2023/40 and
2024/45. -/
def waterLilongwe : Table :=
  ⟨["country", "zone", "year", "w_safely_managed_pct"],
   [[("country", Cell.str "Malawi"), ("zone", Cell.str "Lilongwe"), ("year", Cell.num 2023),
     ("w_safely_managed_pct", Cell.num 40)],
    [("country", Cell.str "Malawi"), ("zone", Cell.str "Lilongwe"), ("year", Cell.num 2024),
     ("w_safely_managed_pct", Cell.num 45)]]⟩

/-- Concrete sewer CSV with a header but no data rows. -/
def sewerHeaderOnly : Table :=
  ⟨["country", "zone", "year", "s_safely_managed_pct"], []⟩

/-- The zone summary the end-to-end scenario produces. -/
def lilongweRecord : ZoneRecord :=
  ⟨"malawi-lilongwe", some (Cell.str "Lilongwe"), some (Cell.str "Malawi"),
   some 45, some 45, none, some 2024, none⟩

/-- Concrete left snapshot table sharing the non-key column "extra". -/
def leftShared : Table :=
  ⟨["zone", "extra"], [[("zone", Cell.str "a"), ("extra", Cell.na)]]⟩

/-- Concrete right snapshot table sharing the non-key column "extra". -/
def rightShared : Table :=
  ⟨["zone", "extra"], [[("zone", Cell.str "a"), ("extra", Cell.num 5)]]⟩

/-- The row `mergeStep leftShared rightShared` produces. -/
def mergedSharedRow : Row :=
  [("zone", Cell.str "a"), ("extra", Cell.na), ("extra_dup", Cell.num 5)]

/-- Concrete raw table with a missing zone value. -/
def tableNaZone : Table :=
  ⟨["zone", "country"], [[("zone", Cell.na), ("country", Cell.str " Malawi ")]]⟩

/-! Helper lemmas about row lookups and cell updates. -/

theorem lookup_append (l1 l2 : List (String × Cell)) (a : String) :
    (l1 ++ l2).lookup a = ((l1.lookup a).or (l2.lookup a)) := by
  induction l1 with
  | nil => simp [List.lookup]
  | cons p l ih =>
    cases hb : (a == p.1) with
    | true => simp [List.lookup, hb]
    | false => simp [List.lookup, hb, ih]

theorem lookup_filter_ne_self (r : Row) (c : String) :
    (r.filter (fun p => p.1 ≠ c)).lookup c = none := by
  induction r with
  | nil => rfl
  | cons p rs ih =>
    by_cases h : p.1 = c
    · simpa [List.filter_cons, h] using ih
    · have hb : (c == p.1) = false := beq_eq_false_iff_ne.mpr (fun hh => h hh.symm)
      simpa [List.filter_cons, h, List.lookup, hb] using ih

theorem lookup_filter_ne (r : Row) (c c2 : String) (h : c2 ≠ c) :
    (r.filter (fun p => p.1 ≠ c)).lookup c2 = r.lookup c2 := by
  induction r with
  | nil => rfl
  | cons p rs ih =>
    by_cases hp : p.1 = c
    · have hb : (c2 == c) = false := beq_eq_false_iff_ne.mpr h
      simpa [List.filter_cons, hp, List.lookup, hb] using ih
    · cases hb : (c2 == p.1) with
      | true => simp [List.filter_cons, hp, List.lookup, hb]
      | false => simpa [List.filter_cons, hp, List.lookup, hb] using ih

theorem lookup_setCell_self (r : Row) (c : String) (v : Cell) :
    (setCell r c v).lookup c = some v := by
  unfold setCell
  rw [lookup_append, lookup_filter_ne_self]
  simp [List.lookup]

theorem lookup_setCell_ne (r : Row) (c c2 : String) (v : Cell) (h : c2 ≠ c) :
    (setCell r c v).lookup c2 = r.lookup c2 := by
  unfold setCell
  rw [lookup_append, lookup_filter_ne r c c2 h]
  have hb : (c2 == c) = false := beq_eq_false_iff_ne.mpr h
  simp [List.lookup, hb]

theorem cellVal_setCell_self (r : Row) (c : String) (v : Cell) :
    cellVal (setCell r c v) c = v := by
  simp [cellVal, lookup_setCell_self]

theorem cellVal_setCell_ne (r : Row) (c c2 : String) (v : Cell) (h : c2 ≠ c) :
    cellVal (setCell r c v) c2 = cellVal r c2 := by
  simp [cellVal, lookup_setCell_ne r c c2 v h]

theorem toNumericCell_idem (x : Cell) :
    toNumericCell (toNumericCell x) = toNumericCell x := by
  cases x with
  | str s =>
    cases h : parseRat s <;> simp [toNumericCell, h]
  | num q => rfl
  | na => rfl

theorem toNumericCell_ne_str (x : Cell) (s : String) :
    toNumericCell x ≠ Cell.str s := by
  cases x with
  | str s2 => cases h : parseRat s2 <;> simp [toNumericCell, h]
  | num q => simp [toNumericCell]
  | na => simp [toNumericCell]

theorem cellVal_coerceRow (pcs : List String) (r : Row) (c : String) :
    cellVal (coerceRow pcs r) c =
      if c ∈ pcs then toNumericCell (cellVal r c) else cellVal r c := by
  induction pcs generalizing r with
  | nil => simp [coerceRow]
  | cons p ps ih =>
    have hstep : coerceRow (p :: ps) r
        = coerceRow ps (setCell r p (toNumericCell (cellVal r p))) := by
      simp [coerceRow]
    rw [hstep, ih]
    by_cases hcp : c = p
    · subst hcp
      by_cases hc : c ∈ ps <;>
        simp [hc, cellVal_setCell_self, toNumericCell_idem]
    · have h2 := cellVal_setCell_ne r p c (toNumericCell (cellVal r p)) hcp
      by_cases hc : c ∈ ps <;> simp [hc, hcp, h2]

theorem mapRowsOpt_forall2 (f : Row → Option Row) :
    ∀ (l l2 : List Row), mapRowsOpt f l = some l2 →
      List.Forall₂ (fun a b => f a = some b) l l2 := by
  intro l
  induction l with
  | nil =>
    intro l2 h
    simp [mapRowsOpt] at h
    subst h
    constructor
  | cons r rs ih =>
    intro l2 h
    cases hf : f r with
    | none => simp [mapRowsOpt, hf] at h
    | some r2 =>
      cases hrest : mapRowsOpt f rs with
      | none => simp [mapRowsOpt, hf, hrest] at h
      | some rest =>
        simp [mapRowsOpt, hf, hrest] at h
        subst h
        exact List.Forall₂.cons hf (ih rest hrest)

/-! Helper lemmas about the latest-snapshot selection. -/

theorem maxQ_eq_none {l : List ℚ} : maxQ l = none ↔ l = [] := by
  cases l with
  | nil => simp [maxQ]
  | cons q qs =>
    simp only [maxQ]
    cases maxQ qs <;> simp

theorem maxQ_mem : ∀ {l : List ℚ} {m : ℚ}, maxQ l = some m → m ∈ l := by
  intro l
  induction l with
  | nil => intro m h; simp [maxQ] at h
  | cons q qs ih =>
    intro m h
    cases hq : maxQ qs with
    | none =>
      simp [maxQ, hq] at h
      simp [h]
    | some m2 =>
      simp [maxQ, hq] at h
      rcases max_choice q m2 with hc | hc
      · rw [← h, hc]
        exact List.mem_cons_self _ _
      · rw [← h, hc]
        exact List.mem_cons_of_mem _ (ih hq)

theorem argmaxYear_mem : ∀ {l : List Row} {p : ℚ × Row}, argmaxYear l = some p → p.2 ∈ l := by
  intro l
  induction l with
  | nil => intro p h; simp [argmaxYear] at h
  | cons r rest ih =>
    intro p h
    cases hy : yearNum r with
    | none =>
      rw [argmaxYear, hy] at h
      exact List.mem_cons_of_mem _ (ih h)
    | some q =>
      cases ha : argmaxYear rest with
      | none =>
        rw [argmaxYear, hy, ha] at h
        cases h
        exact List.mem_cons_self _ _
      | some pb =>
        obtain ⟨qb, rb⟩ := pb
        simp only [argmaxYear, hy, ha] at h
        by_cases hgt : qb > q
        · rw [if_pos hgt] at h
          cases h
          exact List.mem_cons_of_mem _ (ih ha)
        · rw [if_neg hgt] at h
          cases h
          exact List.mem_cons_self _ _

theorem argmaxYear_none {l : List Row} (h : ∀ r ∈ l, yearNum r = none) :
    argmaxYear l = none := by
  induction l with
  | nil => rfl
  | cons r rest ih =>
    have hy : yearNum r = none := h r (List.mem_cons_self _ _)
    rw [argmaxYear, hy]
    exact ih (fun r2 hr2 => h r2 (List.mem_cons_of_mem _ hr2))

theorem argmaxYear_none_filterMap : ∀ {l : List Row}, argmaxYear l = none →
    l.filterMap yearNum = [] := by
  intro l
  induction l with
  | nil => intro h; rfl
  | cons r rest ih =>
    intro h
    cases hy : yearNum r with
    | none =>
      rw [argmaxYear, hy] at h
      simp [List.filterMap_cons, hy, ih h]
    | some q =>
      rw [argmaxYear, hy] at h
      cases ha : argmaxYear rest with
      | none => rw [ha] at h; cases h
      | some pb =>
        obtain ⟨qb, rb⟩ := pb
        rw [ha] at h
        simp only [] at h
        split at h <;> cases h

theorem argmaxYear_max : ∀ {l : List Row} {p : ℚ × Row}, argmaxYear l = some p →
    maxQ (l.filterMap yearNum) = some p.1 := by
  intro l
  induction l with
  | nil => intro p h; simp [argmaxYear] at h
  | cons r rest ih =>
    intro p h
    cases hy : yearNum r with
    | none =>
      rw [argmaxYear, hy] at h
      simp [List.filterMap_cons, hy, ih h]
    | some q =>
      cases ha : argmaxYear rest with
      | none =>
        rw [argmaxYear, hy, ha] at h
        cases h
        have hnil := argmaxYear_none_filterMap ha
        simp [List.filterMap_cons, hy, hnil, maxQ]
      | some pb =>
        obtain ⟨qb, rb⟩ := pb
        simp only [argmaxYear, hy, ha] at h
        have hmx := ih ha
        by_cases hgt : qb > q
        · rw [if_pos hgt] at h
          cases h
          simp [List.filterMap_cons, hy, maxQ, hmx]
          exact le_of_lt hgt
        · rw [if_neg hgt] at h
          cases h
          simp [List.filterMap_cons, hy, maxQ, hmx]
          exact le_of_not_lt hgt

theorem argmaxYear_spec : ∀ {l : List Row} {m : ℚ} {r0 : Row},
    maxQ (l.filterMap yearNum) = some m →
    l.find? (fun r => yearNum r = some m) = some r0 →
    argmaxYear l = some (m, r0) := by
  intro l
  induction l with
  | nil => intro m r0 hmax _; simp [maxQ] at hmax
  | cons r rest ih =>
    intro m r0 hmax hfind
    cases hy : yearNum r with
    | none =>
      simp only [List.filterMap_cons, hy] at hmax
      have hfind2 : rest.find? (fun r2 => yearNum r2 = some m) = some r0 := by
        simpa [List.find?_cons, hy] using hfind
      rw [argmaxYear, hy]
      exact ih hmax hfind2
    | some q =>
      simp only [List.filterMap_cons, hy] at hmax
      cases hmx : maxQ (rest.filterMap yearNum) with
      | none =>
        simp only [maxQ, hmx] at hmax
        have hqm := Option.some.inj hmax
        subst hqm
        have hrest : rest.filterMap yearNum = [] := maxQ_eq_none.mp hmx
        have hnone : argmaxYear rest = none := by
          apply argmaxYear_none
          intro r2 hr2
          cases hy2 : yearNum r2 with
          | none => rfl
          | some q2 =>
            exfalso
            have hq2 : q2 ∈ rest.filterMap yearNum := List.mem_filterMap.mpr ⟨r2, hr2, hy2⟩
            rw [hrest] at hq2
            cases hq2
        have hr0 : r = r0 := by
          simpa [List.find?_cons, hy] using hfind
        subst hr0
        rw [argmaxYear, hy, hnone]
      | some m2 =>
        simp only [maxQ, hmx] at hmax
        have hqm := Option.some.inj hmax
        subst hqm
        by_cases hgt : m2 > q
        · have hm : max q m2 = m2 := max_eq_right (le_of_lt hgt)
          rw [hm] at hfind
          have hne : q ≠ m2 := ne_of_lt hgt
          have hfind2 : rest.find? (fun r2 => yearNum r2 = some m2) = some r0 := by
            simpa [List.find?_cons, hy, hne] using hfind
          have harg := ih hmx hfind2
          simp only [argmaxYear, hy, harg]
          rw [if_pos hgt, hm]
        · have hm : max q m2 = q := max_eq_left (le_of_not_lt hgt)
          rw [hm] at hfind
          have hr0 : r = r0 := by
            simpa [List.find?_cons, hy] using hfind
          subst hr0
          cases ha : argmaxYear rest with
          | none =>
            rw [argmaxYear, hy, ha, hm]
          | some pb =>
            obtain ⟨qb, rb⟩ := pb
            have hqb := argmaxYear_max ha
            rw [hmx] at hqb
            have hqb2 := Option.some.inj hqb
            subst hqb2
            simp only [argmaxYear, hy, ha]
            rw [if_neg hgt, hm]

theorem groupRows_key {keys : List String} {rows : List Row} {k : List Cell} {r : Row}
    (h : r ∈ groupRows keys rows k) : keyOf keys r = k ∧ r ∈ rows := by
  unfold groupRows at h
  rw [List.mem_filter] at h
  exact ⟨by simpa using h.2, h.1⟩

theorem pickLatest_keys_mem {keys : List String} {rows : List Row} :
    ∀ {ks : List (List Cell)} {sel : List Row}, pickLatest keys rows ks = some sel →
      ∀ r ∈ sel, ∃ k ∈ ks, keyOf keys r = k := by
  intro ks
  induction ks with
  | nil =>
    intro sel h r hr
    simp [pickLatest] at h
    subst h
    cases hr
  | cons k1 ks2 ih =>
    intro sel h r hr
    cases ha : argmaxYear (groupRows keys rows k1) with
    | none => rw [pickLatest, ha] at h; cases h
    | some p =>
      cases hp : pickLatest keys rows ks2 with
      | none => rw [pickLatest, ha, hp] at h; cases h
      | some rest =>
        rw [pickLatest, ha, hp] at h
        cases h
        rcases List.mem_cons.mp hr with hr1 | hr2
        · subst hr1
          exact ⟨k1, List.mem_cons_self _ _, (groupRows_key (argmaxYear_mem ha)).1⟩
        · obtain ⟨k2, hk2, hkey⟩ := ih hp r hr2
          exact ⟨k2, List.mem_cons_of_mem _ hk2, hkey⟩

theorem pickLatest_length {keys : List String} {rows : List Row} :
    ∀ {ks : List (List Cell)} {sel : List Row}, pickLatest keys rows ks = some sel →
      sel.length = ks.length := by
  intro ks
  induction ks with
  | nil =>
    intro sel h
    simp [pickLatest] at h
    subst h
    rfl
  | cons k1 ks2 ih =>
    intro sel h
    cases ha : argmaxYear (groupRows keys rows k1) with
    | none => rw [pickLatest, ha] at h; cases h
    | some p =>
      cases hp : pickLatest keys rows ks2 with
      | none => rw [pickLatest, ha, hp] at h; cases h
      | some rest =>
        rw [pickLatest, ha, hp] at h
        cases h
        simp [ih hp]

theorem pickLatest_none {keys : List String} {rows : List Row} :
    ∀ {ks : List (List Cell)} {k : List Cell}, k ∈ ks →
      argmaxYear (groupRows keys rows k) = none → pickLatest keys rows ks = none := by
  intro ks
  induction ks with
  | nil => intro k h; cases h
  | cons k1 ks2 ih =>
    intro k hk ha
    rcases List.mem_cons.mp hk with h1 | h2
    · subst h1
      rw [pickLatest, ha]
    · rw [pickLatest, ih h2 ha]
      cases argmaxYear (groupRows keys rows k1) <;> rfl

theorem pickLatest_filter_eq {keys : List String} {rows : List Row} :
    ∀ {ks : List (List Cell)} {sel : List Row} {k : List Cell} {m : ℚ} {r0 : Row},
      ks.Nodup → pickLatest keys rows ks = some sel → k ∈ ks →
      argmaxYear (groupRows keys rows k) = some (m, r0) →
      sel.filter (fun r => keyOf keys r = k) = [r0] := by
  intro ks
  induction ks with
  | nil => intro sel k m r0 _ _ hk; cases hk
  | cons k1 ks2 ih =>
    intro sel k m r0 hnd h hk ha
    have hnd1 : k1 ∉ ks2 := (List.nodup_cons.mp hnd).1
    have hnd2 : ks2.Nodup := (List.nodup_cons.mp hnd).2
    cases ha1 : argmaxYear (groupRows keys rows k1) with
    | none => rw [pickLatest, ha1] at h; cases h
    | some p =>
      cases hp : pickLatest keys rows ks2 with
      | none => rw [pickLatest, ha1, hp] at h; cases h
      | some rest =>
        rw [pickLatest, ha1, hp] at h
        cases h
        rcases List.mem_cons.mp hk with h1 | h2
        · subst h1
          rw [ha] at ha1
          cases ha1
          have hkey : keyOf keys r0 = k := (groupRows_key (argmaxYear_mem ha)).1
          have hnil : rest.filter (fun r => keyOf keys r = k) = [] := by
            apply List.filter_eq_nil_iff.mpr
            intro r hr
            obtain ⟨k2, hk2, hkey2⟩ := pickLatest_keys_mem hp r hr
            simp only [decide_eq_true_eq]
            rw [hkey2]
            exact fun hc => hnd1 (hc ▸ hk2)
          simp [List.filter_cons, hkey, hnil]
        · have hne : keyOf keys p.2 ≠ k := by
            have hk1 := (groupRows_key (argmaxYear_mem ha1)).1
            rw [hk1]
            intro hc
            subst hc
            exact hnd1 h2
          have hres := ih hnd2 hp h2 ha
          simpa [List.filter_cons, hne] using hres

theorem dropDupKeepLast_map (keys : List String) : ∀ rs : List Row,
    (dropDupKeepLast keys rs).map (keyOf keys) = (rs.map (keyOf keys)).dedup := by
  intro rs
  induction rs with
  | nil => rfl
  | cons r rs ih =>
    cases h : rs.any (fun r2 => keyOf keys r2 = keyOf keys r) with
    | true =>
      have hmem : keyOf keys r ∈ rs.map (keyOf keys) := by
        obtain ⟨r2, hr2, he⟩ := List.any_eq_true.mp h
        exact List.mem_map.mpr ⟨r2, hr2, by simpa using he⟩
      rw [dropDupKeepLast, if_pos h, ih, List.map_cons, List.dedup_cons_of_mem hmem]
    | false =>
      have hmem : keyOf keys r ∉ rs.map (keyOf keys) := by
        intro hc
        obtain ⟨r2, hr2, he⟩ := List.mem_map.mp hc
        have hany : rs.any (fun r2 => keyOf keys r2 = keyOf keys r) = true :=
          List.any_eq_true.mpr ⟨r2, hr2, decide_eq_true he⟩
        rw [h] at hany
        cases hany
      have hcond : ¬ (rs.any (fun r2 => keyOf keys r2 = keyOf keys r) = true) := by
        simp [h]
      rw [dropDupKeepLast, if_neg hcond, List.map_cons, ih, List.map_cons,
        List.dedup_cons_of_not_mem hmem]

theorem validKeyRows_eq_self {keys : List String} {rows : List Row}
    (h : ∀ r ∈ rows, ∀ c ∈ keyOf keys r, c ≠ Cell.na) :
    validKeyRows keys rows = rows := by
  unfold validKeyRows
  apply List.filter_eq_self.mpr
  intro r hr
  rw [List.all_eq_true]
  intro c hc
  simpa using h r hr c hc

theorem selectLatest_year {t : Table} {sel : List Row} (hy : "year" ∈ t.cols)
    (h : selectLatest t = some sel) :
    pickLatest (snapKeys t.cols) (validKeyRows (snapKeys t.cols) t.rows)
      (((validKeyRows (snapKeys t.cols) t.rows).map (keyOf (snapKeys t.cols))).dedup)
      = some sel := by
  simp only [selectLatest] at h
  split at h
  · cases h
  · exact h

theorem selectLatest_noyear {t : Table} {sel : List Row} (hy : "year" ∉ t.cols)
    (h : selectLatest t = some sel) :
    sel = dropDupKeepLast (snapKeys t.cols) t.rows := by
  simp only [selectLatest] at h
  split at h
  · cases h
  · exact (Option.some.inj h).symm

/-- C1: for a normalised table with a `year` column, the Latest-Snapshot
Selector returns, for each key group holding at least one non-missing year,
exactly the first record (in input order) attaining the group's maximum year
— provided the selection succeeds at all (see C3 for the failure case). -/
theorem c1_latest_snapshot_max_year (t : Table) (k : List Cell) (m : ℚ) (r0 : Row)
    (sel : List Row)
    (hy : "year" ∈ t.cols)
    (hkeys : ∀ r ∈ t.rows, ∀ c ∈ keyOf (snapKeys t.cols) r, c ≠ Cell.na)
    (hmax : maxQ ((groupRows (snapKeys t.cols) t.rows k).filterMap yearNum) = some m)
    (hfirst : (groupRows (snapKeys t.cols) t.rows k).find? (fun r => yearNum r = some m)
      = some r0)
    (hsel : selectLatest t = some sel) :
    sel.filter (fun r => keyOf (snapKeys t.cols) r = k) = [r0] := by
  have hvalid : validKeyRows (snapKeys t.cols) t.rows = t.rows := validKeyRows_eq_self hkeys
  have hpick := selectLatest_year hy hsel
  rw [hvalid] at hpick
  have hglen : groupRows (snapKeys t.cols) t.rows k ≠ [] := by
    intro hnil
    rw [hnil] at hmax
    simp [maxQ] at hmax
  have hkmem : k ∈ ((t.rows.map (keyOf (snapKeys t.cols))).dedup) := by
    rw [List.mem_dedup]
    obtain ⟨r, hr⟩ := List.exists_mem_of_ne_nil _ hglen
    have hgk := groupRows_key hr
    exact List.mem_map.mpr ⟨r, hgk.2, hgk.1⟩
  have harg : argmaxYear (groupRows (snapKeys t.cols) t.rows k) = some (m, r0) :=
    argmaxYear_spec hmax hfirst
  exact pickLatest_filter_eq (List.nodup_dedup _) hpick hkmem harg

theorem c1_max_year_witness :
    List.filter (fun r => keyOf (snapKeys tableMaxYearExample.cols) r = [Cell.str "a"])
      [[("zone", Cell.str "a"), ("year", Cell.num 2022)]]
      = [[("zone", Cell.str "a"), ("year", Cell.num 2022)]] :=
  c1_latest_snapshot_max_year tableMaxYearExample [Cell.str "a"] 2022
    [("zone", Cell.str "a"), ("year", Cell.num 2022)]
    [[("zone", Cell.str "a"), ("year", Cell.num 2022)]]
    (by decide) (by decide) (by decide) (by decide) (by decide)

/-- C2 counterexample: on a table whose only key group has a missing year,
`_latest_snapshot` raises (yields no table at all), so its output does not
have one row for the one key present in the input. -/
theorem c2_counterexample_missing_year_group :
    latest_snapshot tableAllNaYear [] [] = none ∧ distinctKeyCount tableAllNaYear = 1 :=
  ⟨rfl, rfl⟩

/-- C2 (amended): when every key value is non-missing and the Latest-Snapshot
Selector returns a table, that table has exactly one row per distinct key of
the input. -/
theorem c2_amended_one_row_per_key (t : Table) (rm : List (String × String))
    (additional : List String) (out : Table)
    (hkeys : ∀ r ∈ t.rows, ∀ c ∈ keyOf (snapKeys t.cols) r, c ≠ Cell.na)
    (hok : latest_snapshot t rm additional = some out) :
    out.rows.length = distinctKeyCount t := by
  unfold latest_snapshot at hok
  obtain ⟨sel, hsel, hout⟩ := Option.map_eq_some'.mp hok
  have hrows : out.rows = sel.map
      (projectRow (keepColsList t.cols (snapKeys t.cols) rm additional) rm) := by
    rw [← hout]
  rw [hrows, List.length_map]
  by_cases hy : "year" ∈ t.cols
  · have hpick := selectLatest_year hy hsel
    rw [validKeyRows_eq_self hkeys] at hpick
    have hlen := pickLatest_length hpick
    simpa [distinctKeyCount] using hlen
  · have hdrop := selectLatest_noyear hy hsel
    have hm := congrArg List.length (dropDupKeepLast_map (snapKeys t.cols) t.rows)
    rw [List.length_map] at hm
    rw [hdrop]
    simpa [distinctKeyCount] using hm

theorem c2_one_row_per_key_witness :
    (Table.mk ["zone", "year"]
      [[("zone", Cell.str "b"), ("year", Cell.num 2021)],
       [("zone", Cell.str "a"), ("year", Cell.num 2022)]]).rows.length
      = distinctKeyCount tableTwoKeys :=
  c2_amended_one_row_per_key tableTwoKeys [] []
    (Table.mk ["zone", "year"]
      [[("zone", Cell.str "b"), ("year", Cell.num 2021)],
       [("zone", Cell.str "a"), ("year", Cell.num 2022)]])
    (by decide) (by decide)

/-- C3 counterexample: a key group whose years are all missing does not
produce one row — the Latest-Snapshot Selector raises instead (the pandas
`idxmax`/`loc` pair raises on an all-NA group), yielding no table. -/
theorem c3_counterexample_all_na_year :
    latest_snapshot tableAllNaYearPair [] [] = none
      ∧ distinctKeyCount tableAllNaYearPair = 1 :=
  ⟨rfl, rfl⟩

/-- C3 (amended): when the table has a `year` column and some key group
consists only of missing years, the Latest-Snapshot Selector raises (returns
no table), for every rename map and extra-column list. -/
theorem c3_amended_selector_raises_on_all_na_year (t : Table) (k : List Cell)
    (hy : "year" ∈ t.cols)
    (hk : k ∈ (validKeyRows (snapKeys t.cols) t.rows).map (keyOf (snapKeys t.cols)))
    (hall : ∀ r ∈ validKeyRows (snapKeys t.cols) t.rows,
      keyOf (snapKeys t.cols) r = k → yearNum r = none) :
    ∀ (rm : List (String × String)) (additional : List String),
      latest_snapshot t rm additional = none := by
  intro rm additional
  have hsel : selectLatest t = none := by
    simp only [selectLatest]
    split
    · rfl
    · apply pickLatest_none (List.mem_dedup.mpr hk)
      apply argmaxYear_none
      intro r hr
      have hgk := groupRows_key hr
      exact hall r hgk.2 hgk.1
  unfold latest_snapshot
  rw [hsel]
  rfl

theorem c3_selector_raises_witness :
    latest_snapshot tableMixedNaYear [] [] = none :=
  c3_amended_selector_raises_on_all_na_year tableMixedNaYear [Cell.str "b"]
    (by decide) (by decide) (by decide) [] []

/-! Helper lemmas for the reconciliation mean (C4). -/

theorem mem_insertSorted {cs : List String} {r : Row} :
    ∀ {l : List Row} {x : Row}, x ∈ insertSorted cs r l → x = r ∨ x ∈ l := by
  intro l
  induction l with
  | nil =>
    intro x hx
    simp [insertSorted] at hx
    exact Or.inl hx
  | cons a as ih =>
    intro x hx
    rw [insertSorted] at hx
    by_cases hc : rowOrd cs r a = Ordering.gt
    · rw [if_pos hc] at hx
      rcases List.mem_cons.mp hx with h1 | h2
      · exact Or.inr (h1 ▸ List.mem_cons_self _ _)
      · rcases ih h2 with h3 | h4
        · exact Or.inl h3
        · exact Or.inr (List.mem_cons_of_mem _ h4)
    · rw [if_neg hc] at hx
      rcases List.mem_cons.mp hx with h1 | h2
      · exact Or.inl h1
      · exact Or.inr h2

theorem mem_sortRowsBy {cs : List String} :
    ∀ {rows : List Row} {x : Row}, x ∈ sortRowsBy cs rows → x ∈ rows := by
  intro rows
  induction rows with
  | nil => intro x hx; simp [sortRowsBy] at hx
  | cons a as ih =>
    intro x hx
    rw [sortRowsBy, List.foldr_cons] at hx
    rcases mem_insertSorted hx with h1 | h2
    · exact h1 ▸ List.mem_cons_self _ _
    · exact List.mem_cons_of_mem _ (ih h2)

theorem safeAccessRows_mem : ∀ {rows rs : List Row}, safeAccessRows rows = some rs →
    ∀ x ∈ rs, ∃ r ∈ rows, ∃ v,
      meanCell2 (cellVal r "water_safely_pct") (cellVal r "sewer_safely_pct") = some v
        ∧ x = setCell r "safeAccess" v := by
  intro rows
  induction rows with
  | nil =>
    intro rs h x hx
    simp [safeAccessRows] at h
    subst h
    cases hx
  | cons r rows ih =>
    intro rs h x hx
    cases hm : meanCell2 (cellVal r "water_safely_pct") (cellVal r "sewer_safely_pct") with
    | none => rw [safeAccessRows, hm] at h; cases h
    | some v =>
      cases hrest : safeAccessRows rows with
      | none => rw [safeAccessRows, hm, hrest] at h; cases h
      | some rest =>
        rw [safeAccessRows, hm, hrest] at h
        cases h
        rcases List.mem_cons.mp hx with h1 | h2
        · exact ⟨r, List.mem_cons_self _ _, v, hm, h1⟩
        · obtain ⟨r2, hr2, v2, hm2, hx2⟩ := ih hrest x h2
          exact ⟨r2, List.mem_cons_of_mem _ hr2, v2, hm2, hx2⟩

theorem recordsOf_mem : ∀ {rows : List Row} {recs : List ZoneRecord},
    recordsOf rows = some recs → ∀ rec ∈ recs, ∃ r ∈ rows, recordOfRow r = some rec := by
  intro rows
  induction rows with
  | nil =>
    intro recs h rec hrec
    simp [recordsOf] at h
    subst h
    cases hrec
  | cons r rows ih =>
    intro recs h rec hrec
    cases hx : recordOfRow r with
    | none => rw [recordsOf, hx] at h; cases h
    | some x =>
      cases hrest : recordsOf rows with
      | none => rw [recordsOf, hx, hrest] at h; cases h
      | some rest =>
        rw [recordsOf, hx, hrest] at h
        cases h
        rcases List.mem_cons.mp hrec with h1 | h2
        · exact ⟨r, List.mem_cons_self _ _, h1 ▸ hx⟩
        · obtain ⟨r2, hr2, hx2⟩ := ih hrest rec h2
          exact ⟨r2, List.mem_cons_of_mem _ hr2, hx2⟩

theorem meanCell2_not_str_left {a b v : Cell} (h : meanCell2 a b = some v) :
    ∀ s, a ≠ Cell.str s := by
  intro s hc
  subst hc
  simp [meanCell2] at h

theorem meanCell2_not_str_right {a b v : Cell} (h : meanCell2 a b = some v) :
    ∀ s, b ≠ Cell.str s := by
  intro s hc
  subst hc
  cases a <;> simp [meanCell2] at h

theorem meanCell2_eq (a b : Cell) (ha : ∀ s, a ≠ Cell.str s) (hb : ∀ s, b ≠ Cell.str s) :
    meanCell2 a b = some (match omeanQ (cellQ a) (cellQ b) with
      | some q => Cell.num q
      | none => Cell.na) := by
  cases a with
  | str s => exact absurd rfl (ha s)
  | num x =>
    cases b with
    | str s => exact absurd rfl (hb s)
    | num y => rfl
    | na => rfl
  | na =>
    cases b with
    | str s => exact absurd rfl (hb s)
    | num y => rfl
    | na => rfl

theorem pyFloat_of_not_str (o : Option Cell) (h : ∀ s, o ≠ some (Cell.str s)) :
    pyFloat o = some (cellQ (o.getD Cell.na)) := by
  cases o with
  | none => rfl
  | some c =>
    cases c with
    | str s => exact absurd rfl (h s)
    | num q => rfl
    | na => rfl

theorem pyFloat_mean (o : Option ℚ) :
    pyFloat (some (match o with | some q => Cell.num q | none => Cell.na)) = some o := by
  cases o <;> rfl

theorem record_safeAccess_omean {r : Row} {v : Cell} {rec : ZoneRecord}
    (hm : meanCell2 (cellVal r "water_safely_pct") (cellVal r "sewer_safely_pct") = some v)
    (hrec : recordOfRow (setCell r "safeAccess" v) = some rec) :
    rec.safeAccess = omeanQ rec.water_safely_pct rec.sewer_safely_pct := by
  have haw := meanCell2_not_str_left hm
  have has := meanCell2_not_str_right hm
  have hw2 : ∀ s, rowGet r "water_safely_pct" ≠ some (Cell.str s) := by
    intro s hc
    apply haw s
    simp [cellVal, rowGet] at hc ⊢
    rw [hc]
    rfl
  have hs2 : ∀ s, rowGet r "sewer_safely_pct" ≠ some (Cell.str s) := by
    intro s hc
    apply has s
    simp [cellVal, rowGet] at hc ⊢
    rw [hc]
    rfl
  have hga : rowGet (setCell r "safeAccess" v) "safeAccess" = some v :=
    lookup_setCell_self r "safeAccess" v
  have hgw : rowGet (setCell r "safeAccess" v) "water_safely_pct"
      = rowGet r "water_safely_pct" :=
    lookup_setCell_ne r "safeAccess" "water_safely_pct" v (by decide)
  have hgs : rowGet (setCell r "safeAccess" v) "sewer_safely_pct"
      = rowGet r "sewer_safely_pct" :=
    lookup_setCell_ne r "safeAccess" "sewer_safely_pct" v (by decide)
  have hveq : v = (match omeanQ (cellQ (cellVal r "water_safely_pct"))
      (cellQ (cellVal r "sewer_safely_pct")) with
    | some q => Cell.num q
    | none => Cell.na) := by
    have := meanCell2_eq _ _ haw has
    rw [hm] at this
    exact Option.some.inj this
  simp only [recordOfRow, Option.bind_eq_bind, Option.bind_eq_some] at hrec
  obtain ⟨sa, hsa, wp, hwp, sp, hsp, wy, hwy, sy, hsy, hmk⟩ := hrec
  have hrec2 := Option.some.inj hmk
  subst hrec2
  rw [hga, hveq] at hsa
  rw [pyFloat_mean] at hsa
  rw [hgw, pyFloat_of_not_str _ hw2] at hwp
  rw [hgs, pyFloat_of_not_str _ hs2] at hsp
  have hsa2 := Option.some.inj hsa
  have hwp2 := Option.some.inj hwp
  have hsp2 := Option.some.inj hsp
  subst hsa2
  subst hwp2
  subst hsp2
  rfl

/-- C4: every zone record produced by `_prepare_access_data` carries
`safeAccess` equal to the mean of its non-null safely-managed percentages:
both present gives their average, exactly one present gives that value
unchanged, and both missing gives null. -/
theorem c4_safe_access_mean (waterFile sewerFile : Option Table)
    (recs : List ZoneRecord) (rec : ZoneRecord)
    (hok : prepare_access_data waterFile sewerFile = some recs)
    (hrec : rec ∈ recs) :
    rec.safeAccess = omeanQ rec.water_safely_pct rec.sewer_safely_pct := by
  simp only [prepare_access_data, Option.bind_eq_bind, Option.bind_eq_some] at hok
  obtain ⟨ws, hws, wdf, hwdf, sdf, hsdf, wl, hwl, sl, hsl, mg, hmg, wsafe, hwsafe, hrecs⟩ := hok
  simp only [addSafeAccess] at hwsafe
  split at hwsafe
  · obtain ⟨rs, hrs, hws2⟩ := Option.map_eq_some'.mp hwsafe
    have hwrows : wsafe.rows = rs := by rw [← hws2]
    rw [hwrows] at hrecs
    obtain ⟨row, hrow, hrowrec⟩ := recordsOf_mem hrecs rec hrec
    have hrow2 : row ∈ rs := mem_sortRowsBy hrow
    obtain ⟨r, _, v, hm, hset⟩ := safeAccessRows_mem hrs row hrow2
    exact record_safeAccess_omean hm (hset ▸ hrowrec)
  · cases hwsafe

theorem c4_safe_access_witness :
    ZoneRecord.safeAccess
        ⟨"x-z", some (Cell.str "Z"), some (Cell.str "X"), some 70, some 70, none,
          some 2020, some 2020⟩
      = omeanQ
        (ZoneRecord.water_safely_pct
          ⟨"x-z", some (Cell.str "Z"), some (Cell.str "X"), some 70, some 70, none,
            some 2020, some 2020⟩)
        (ZoneRecord.sewer_safely_pct
          ⟨"x-z", some (Cell.str "Z"), some (Cell.str "X"), some 70, some 70, none,
            some 2020, some 2020⟩) :=
  c4_safe_access_mean (some waterMean70) (some sewerMeanNa)
    [⟨"x-z", some (Cell.str "Z"), some (Cell.str "X"), some 70, some 70, none,
      some 2020, some 2020⟩]
    ⟨"x-z", some (Cell.str "Z"), some (Cell.str "X"), some 70, some 70, none,
      some 2020, some 2020⟩
    (by decide) (by decide)

theorem filter_map_erase {α β : Type} [DecidableEq α] (p : α → Bool) (f : α → β)
    (q : β → Bool) (r : α) (hq : q (f r) = false) :
    ∀ (l : List α), r ∈ l →
      ((l.filter p).map f).filter q = (((l.erase r).filter p).map f).filter q := by
  intro l
  induction l with
  | nil => intro h; cases h
  | cons a as ih =>
    intro hr
    rw [List.erase_cons]
    by_cases hae : a = r
    · rw [if_pos (by rw [hae]; exact beq_self_eq_true r)]
      cases hpa : p a with
      | true =>
        rw [List.filter_cons, if_pos hpa, List.map_cons, List.filter_cons]
        have hqa : ¬ (q (f a) = true) := by
          rw [hae, hq]
          exact Bool.false_ne_true
        rw [if_neg hqa]
      | false =>
        rw [List.filter_cons, if_neg (by simp [hpa])]
    · rw [if_neg (by simp [hae])]
      have hras : r ∈ as := by
        rcases List.mem_cons.mp hr with h1 | h2
        · exact absurd h1.symm hae
        · exact h2
      cases hpa : p a with
      | true =>
        rw [List.filter_cons, if_pos hpa, List.filter_cons, if_pos hpa,
          List.map_cons, List.map_cons, List.filter_cons, List.filter_cons, ih hras]
      | false =>
        rw [List.filter_cons, if_neg (by simp [hpa]), List.filter_cons,
          if_neg (by simp [hpa]), ih hras]

/-- C5 counterexample: a row with one chlorine test passed and zero conducted
is not excluded from its period's mean quality rate — the division yields
+infinity and the mean becomes +infinity (had the row been excluded, the mean
of the then-empty period would be NaN). -/
theorem c5_counterexample_zero_denominator_infinity :
    serviceRowZeroDen.tests_conducted_chlorine = some 0
      ∧ time_series_quality [serviceRowZeroDen] 2024 1 = PFloat.pinf
      ∧ meanSkipna [] = PFloat.nan
      ∧ PFloat.pinf ≠ PFloat.nan :=
  ⟨rfl, by decide, rfl, by decide⟩

/-- C5 (amended): a row whose derived quality rate is NaN — in particular one
with a zero chlorine denominator and zero numerator, or a missing denominator
— contributes no value to its period's mean: removing it leaves the mean
unchanged.  But a zero denominator with a nonzero numerator (and well-formed
E. coli counts) makes the rate +infinity, which is included in the mean, not
excluded. -/
theorem c5_amended_zero_denominator :
    (∀ (rows : List ServiceRow) (y m : Int) (r : ServiceRow), r ∈ rows →
      water_quality_rate r = PFloat.nan →
      time_series_quality rows y m = time_series_quality (rows.erase r) y m)
    ∧ (∀ r : ServiceRow, r.tests_conducted_chlorine = some 0 →
        r.test_passed_chlorine = some 0 → water_quality_rate r = PFloat.nan)
    ∧ (∀ r : ServiceRow, r.tests_conducted_chlorine = none →
        water_quality_rate r = PFloat.nan)
    ∧ (∀ (r : ServiceRow) (p e c : ℚ), r.tests_conducted_chlorine = some 0 →
        r.test_passed_chlorine = some p → 0 < p →
        r.tests_passed_ecoli = some e → r.test_conducted_ecoli = some c → c ≠ 0 →
        water_quality_rate r = PFloat.pinf) := by
  refine ⟨?_, ?_, ?_, ?_⟩
  · intro rows y m r hr hrate
    have hq : (fun x => decide (x ≠ PFloat.nan)) (water_quality_rate r) = false := by
      simp [hrate]
    have hkey := filter_map_erase (fun r2 => decide (r2.year = y ∧ r2.month = m))
      water_quality_rate (fun x => decide (x ≠ PFloat.nan)) r hq rows hr
    unfold time_series_quality meanSkipna
    rw [hkey]
  · intro r h1 h2
    simp [water_quality_rate, h1, h2, toPF, PFloat.div, PFloat.mul, PFloat.add]
  · intro r h1
    cases hp : r.test_passed_chlorine with
    | none => simp [water_quality_rate, h1, hp, toPF, PFloat.div, PFloat.mul, PFloat.add]
    | some p => simp [water_quality_rate, h1, hp, toPF, PFloat.div, PFloat.mul, PFloat.add]
  · intro r p e c h1 h2 hp h3 h4 hc
    have h100 : (0 : ℚ) < 100 := by norm_num
    have h2n : ¬ ((2 : ℚ) < 0) := by norm_num
    simp [water_quality_rate, h1, h2, h3, h4, toPF, PFloat.div, PFloat.mul, PFloat.add,
      hp, hc, h100, h2n]

theorem c5_ratio_witness :
    water_quality_rate ⟨2024, 2, some 0, some 0, some 1, some 1⟩ = PFloat.nan
      ∧ water_quality_rate ⟨2024, 3, some 2, none, some 1, some 1⟩ = PFloat.nan
      ∧ water_quality_rate ⟨2024, 4, some 1, some 0, some 1, some 1⟩ = PFloat.pinf
      ∧ time_series_quality [⟨2024, 2, some 0, some 0, some 1, some 1⟩] 2024 2
          = time_series_quality
              (([⟨2024, 2, some 0, some 0, some 1, some 1⟩] :
                List ServiceRow).erase ⟨2024, 2, some 0, some 0, some 1, some 1⟩) 2024 2 :=
  ⟨c5_amended_zero_denominator.2.1 ⟨2024, 2, some 0, some 0, some 1, some 1⟩ rfl rfl,
   c5_amended_zero_denominator.2.2.1 ⟨2024, 3, some 2, none, some 1, some 1⟩ rfl,
   c5_amended_zero_denominator.2.2.2 ⟨2024, 4, some 1, some 0, some 1, some 1⟩ 1 1 1
     rfl rfl (by decide) rfl rfl (by decide),
   c5_amended_zero_denominator.1 [⟨2024, 2, some 0, some 0, some 1, some 1⟩] 2024 2
     ⟨2024, 2, some 0, some 0, some 1, some 1⟩ (by decide)
     (c5_amended_zero_denominator.2.1 ⟨2024, 2, some 0, some 0, some 1, some 1⟩ rfl rfl)⟩

/-! Helper lemmas about the normaliser stages (C6, C10). -/

theorem cellVal_normZone_ne {cols : List String} {r : Row} {c : String} (h : c ≠ "zone") :
    cellVal (normZone cols r) c = cellVal r c := by
  unfold normZone
  split
  · exact cellVal_setCell_ne r "zone" c _ h
  · rfl

theorem cellVal_normCountry_ne {cols : List String} {r : Row} {c : String}
    (h : c ≠ "country") : cellVal (normCountry cols r) c = cellVal r c := by
  unfold normCountry
  split
  · exact cellVal_setCell_ne r "country" c _ h
  · rfl

theorem normYear_some_ne {cols : List String} {r r3 : Row} (hok : normYear cols r = some r3)
    {c : String} (h : c ≠ "year") : cellVal r3 c = cellVal r c := by
  unfold normYear at hok
  split at hok
  · obtain ⟨v, _, hset⟩ := Option.map_eq_some'.mp hok
    rw [← hset]
    exact cellVal_setCell_ne r "year" c v h
  · rw [← Option.some.inj hok]

theorem cellVal_normZone_self {cols : List String} {r : Row} (hz : "zone" ∈ cols) :
    cellVal (normZone cols r) "zone" = stripCell (astypeStrCell (cellVal r "zone")) := by
  unfold normZone
  rw [if_pos hz, cellVal_setCell_self]

theorem cellVal_normCountry_self {cols : List String} {r : Row} (hc : "country" ∈ cols) :
    cellVal (normCountry cols r) "country"
      = stripCell (astypeStrCell (cellVal r "country")) := by
  unfold normCountry
  rw [if_pos hc, cellVal_setCell_self]

/-- C6 counterexample: the Record Normalizer does not strip the source prefix
from column names — a table with column `w_x_pct` normalises to a table whose
column set still contains `w_x_pct` (and no `x_pct`), so the output column
set is not prefix-free. -/
theorem c6_counterexample_no_prefix_strip :
    normalise_access_df tablePrefixedPct "w_" []
        = some (Table.mk ["zone", "w_x_pct"]
            [[("zone", Cell.str "a"), ("w_x_pct", Cell.num 12)]])
      ∧ "w_x_pct" ∈ (Table.mk ["zone", "w_x_pct"]
          [[("zone", Cell.str "a"), ("w_x_pct", Cell.num 12)]]).cols
      ∧ "x_pct" ∉ (Table.mk ["zone", "w_x_pct"]
          [[("zone", Cell.str "a"), ("w_x_pct", Cell.num 12)]]).cols
      ∧ ("w_".toList.isPrefixOf "w_x_pct".toList) = true := by
  refine ⟨by decide, by decide, by decide, by decide⟩

/-- C6 (amended): the Record Normalizer leaves every column name unchanged
and coerces the values of the prefix-plus-`_pct` columns (and the extra
percentage columns present) to numeric-or-missing: each such output cell is
`to_numeric` of the input cell, so an unparseable value becomes missing and
no text value survives in those columns. -/
theorem c6_amended_normalise_coerces_in_place (df : Table) (pfx : String)
    (extras : List String) (out : Table)
    (hok : normalise_access_df df pfx extras = some out)
    (hd : ∀ c ∈ pctColsOf df.cols pfx extras, c ≠ "zone" ∧ c ≠ "country" ∧ c ≠ "year") :
    out.cols = df.cols
      ∧ List.Forall₂ (fun r r2 => ∀ c ∈ pctColsOf df.cols pfx extras,
          cellVal r2 c = toNumericCell (cellVal r c)
            ∧ ∀ s, cellVal r2 c ≠ Cell.str s) df.rows out.rows := by
  unfold normalise_access_df at hok
  obtain ⟨rs, hrs, hout⟩ := Option.map_eq_some'.mp hok
  refine ⟨by rw [← hout], ?_⟩
  have hrows : out.rows = rs := by rw [← hout]
  rw [hrows]
  refine (mapRowsOpt_forall2 _ df.rows rs hrs).imp ?_
  intro r r2 hnr c hc
  obtain ⟨hcz, hcc, hcy⟩ := hd c hc
  unfold normaliseRow at hnr
  obtain ⟨r3, hr3, hcoe⟩ := Option.map_eq_some'.mp hnr
  have hval : cellVal r3 c = cellVal r c := by
    rw [normYear_some_ne hr3 hcy, cellVal_normCountry_ne hcc, cellVal_normZone_ne hcz]
  rw [← hcoe, cellVal_coerceRow, if_pos hc, hval]
  exact ⟨rfl, fun s => toNumericCell_ne_str _ s⟩

theorem c6_normalise_witness :
    (Table.mk ["zone", "w_x_pct"] [[("zone", Cell.str "a"), ("w_x_pct", Cell.num 12)]]).cols
        = tablePrefixedPct.cols
      ∧ List.Forall₂ (fun r r2 => ∀ c ∈ pctColsOf tablePrefixedPct.cols "w_" [],
          cellVal r2 c = toNumericCell (cellVal r c) ∧ ∀ s, cellVal r2 c ≠ Cell.str s)
        tablePrefixedPct.rows
        (Table.mk ["zone", "w_x_pct"]
          [[("zone", Cell.str "a"), ("w_x_pct", Cell.num 12)]]).rows :=
  c6_amended_normalise_coerces_in_place tablePrefixedPct "w_" []
    (Table.mk ["zone", "w_x_pct"] [[("zone", Cell.str "a"), ("w_x_pct", Cell.num 12)]])
    (by decide) (by decide)

/-- C10: after normalisation the `zone` and `country` columns hold no missing
values — every cell is text, and an originally-missing value becomes the
literal string "nan" (via the string conversion applied before trimming), so
downstream keying and slugs treat a missing zone as the ordinary value
"nan". -/
theorem c10_normalised_keys_never_missing (df : Table) (pfx : String)
    (extras : List String) (out : Table)
    (hok : normalise_access_df df pfx extras = some out) :
    List.Forall₂ (fun r r2 =>
      ("zone" ∈ df.cols → "zone" ∉ pctColsOf df.cols pfx extras →
        (∃ s, cellVal r2 "zone" = Cell.str s)
          ∧ (cellVal r "zone" = Cell.na → cellVal r2 "zone" = Cell.str "nan"))
      ∧ ("country" ∈ df.cols → "country" ∉ pctColsOf df.cols pfx extras →
        (∃ s, cellVal r2 "country" = Cell.str s)
          ∧ (cellVal r "country" = Cell.na → cellVal r2 "country" = Cell.str "nan")))
      df.rows out.rows := by
  unfold normalise_access_df at hok
  obtain ⟨rs, hrs, hout⟩ := Option.map_eq_some'.mp hok
  have hrows : out.rows = rs := by rw [← hout]
  rw [hrows]
  refine (mapRowsOpt_forall2 _ df.rows rs hrs).imp ?_
  intro r r2 hnr
  unfold normaliseRow at hnr
  obtain ⟨r3, hr3, hcoe⟩ := Option.map_eq_some'.mp hnr
  constructor
  · intro hz hzp
    have h1 : cellVal r2 "zone" = cellVal r3 "zone" := by
      rw [← hcoe, cellVal_coerceRow, if_neg hzp]
    have h2 : cellVal r3 "zone" = stripCell (astypeStrCell (cellVal r "zone")) := by
      rw [normYear_some_ne hr3 (by decide), cellVal_normCountry_ne (by decide),
        cellVal_normZone_self hz]
    rw [h1, h2]
    cases hcell : cellVal r "zone" with
    | str s => exact ⟨⟨String.mk (trimChars s.toList), rfl⟩, fun h => Cell.noConfusion h⟩
    | num q => exact ⟨⟨String.mk (trimChars (numRepr q).toList), rfl⟩,
        fun h => Cell.noConfusion h⟩
    | na => exact ⟨⟨"nan", by decide⟩, fun _ => by decide⟩
  · intro hc hcp
    have h1 : cellVal r2 "country" = cellVal r3 "country" := by
      rw [← hcoe, cellVal_coerceRow, if_neg hcp]
    have h2 : cellVal r3 "country" = stripCell (astypeStrCell (cellVal r "country")) := by
      rw [normYear_some_ne hr3 (by decide), cellVal_normCountry_self hc,
        cellVal_normZone_ne (by decide)]
    rw [h1, h2]
    cases hcell : cellVal r "country" with
    | str s => exact ⟨⟨String.mk (trimChars s.toList), rfl⟩, fun h => Cell.noConfusion h⟩
    | num q => exact ⟨⟨String.mk (trimChars (numRepr q).toList), rfl⟩,
        fun h => Cell.noConfusion h⟩
    | na => exact ⟨⟨"nan", by decide⟩, fun _ => by decide⟩

theorem c10_keys_witness :
    List.Forall₂ (fun r r2 =>
      ("zone" ∈ tableNaZone.cols → "zone" ∉ pctColsOf tableNaZone.cols "w_" [] →
        (∃ s, cellVal r2 "zone" = Cell.str s)
          ∧ (cellVal r "zone" = Cell.na → cellVal r2 "zone" = Cell.str "nan"))
      ∧ ("country" ∈ tableNaZone.cols → "country" ∉ pctColsOf tableNaZone.cols "w_" [] →
        (∃ s, cellVal r2 "country" = Cell.str s)
          ∧ (cellVal r "country" = Cell.na → cellVal r2 "country" = Cell.str "nan")))
      tableNaZone.rows
      (Table.mk ["zone", "country"]
        [[("zone", Cell.str "nan"), ("country", Cell.str "Malawi")]]).rows :=
  c10_normalised_keys_never_missing tableNaZone "w_" []
    (Table.mk ["zone", "country"]
      [[("zone", Cell.str "nan"), ("country", Cell.str "Malawi")]])
    (by decide)

/-- C7 counterexample: with the scenario's water file but no sewer file on
disk, the access pipeline raises `FileNotFoundError` (`load_csv_data`
requires both files) and produces no zone summary at all — in particular not
the claimed Lilongwe row. -/
theorem c7_counterexample_missing_sewer_file :
    prepare_access_data (some waterLilongwe) none = none := rfl

/-- C7 (amended): with the scenario's water file and a sewer file that is
present but holds only a header (no data rows), the pipeline outputs exactly
one zone summary — Lilongwe with `water_safely_pct` 45 from the later year
2024, a null `sewer_safely_pct`, and `safeAccess` 45; with the sewer file
absent it raises instead (see the counterexample). -/
theorem c7_amended_end_to_end_lilongwe :
    prepare_access_data (some waterLilongwe) (some sewerHeaderOnly)
      = some [lilongweRecord] := by decide

/-! Helper lemmas for the slug function (C8). -/

theorem mem_squashRuns : ∀ (cs : List Char) (b : Bool) (ch : Char),
    ch ∈ squashRunsAux cs b → isSlugChar ch = true ∨ ch = '-' := by
  intro cs
  induction cs with
  | nil => intro b ch h; cases h
  | cons c rest ih =>
    intro b ch h
    rw [squashRunsAux] at h
    by_cases hs : isSlugChar c = true
    · rw [if_pos hs] at h
      rcases List.mem_cons.mp h with h1 | h2
      · exact Or.inl (h1 ▸ hs)
      · exact ih false ch h2
    · rw [if_neg hs] at h
      cases b with
      | true =>
        simp only [if_pos] at h
        exact ih true ch h
      | false =>
        simp only [Bool.false_eq_true, if_false] at h
        rcases List.mem_cons.mp h with h1 | h2
        · exact Or.inr h1
        · exact ih true ch h2

theorem mem_dropWhile_sub {p : Char → Bool} :
    ∀ {l : List Char} {ch : Char}, ch ∈ l.dropWhile p → ch ∈ l := by
  intro l
  induction l with
  | nil => intro ch h; simp [List.dropWhile] at h
  | cons a l ih =>
    intro ch h
    rw [List.dropWhile_cons] at h
    split at h
    · exact List.mem_cons_of_mem _ (ih h)
    · exact h

theorem mem_stripDashes {cs : List Char} {ch : Char} (h : ch ∈ stripDashes cs) : ch ∈ cs := by
  unfold stripDashes at h
  rw [List.mem_reverse] at h
  have h2 := mem_dropWhile_sub h
  rw [List.mem_reverse] at h2
  exact mem_dropWhile_sub h2

theorem head_dropWhile_not {p : Char → Bool} :
    ∀ (l : List Char) {a : Char}, (l.dropWhile p).head? = some a → p a = false := by
  intro l
  induction l with
  | nil => intro a h; cases h
  | cons x l ih =>
    intro a h
    rw [List.dropWhile_cons] at h
    split at h
    · exact ih h
    · rename_i hpx
      have hx : x = a := Option.some.inj h
      subst hx
      exact Bool.not_eq_true _ ▸ by simpa using hpx

theorem getLast_dropWhile {p : Char → Bool} :
    ∀ (l : List Char), (l.dropWhile p) ≠ [] →
      (l.dropWhile p).getLast? = l.getLast? := by
  intro l
  induction l with
  | nil => intro h; simp [List.dropWhile] at h
  | cons x l ih =>
    intro h
    by_cases hp : p x = true
    · rw [List.dropWhile_cons, if_pos hp] at h ⊢
      have hl : l ≠ [] := by
        intro hnil
        subst hnil
        simp [List.dropWhile] at h
      rw [ih h]
      cases l with
      | nil => exact absurd rfl hl
      | cons y t => rw [List.getLast?_cons_cons]
    · rw [List.dropWhile_cons, if_neg hp]

theorem stripDashes_edges (cs : List Char) :
    (stripDashes cs).head? ≠ some '-' ∧ (stripDashes cs).getLast? ≠ some '-' := by
  unfold stripDashes
  constructor
  · rw [List.head?_reverse]
    by_cases hne : ((cs.dropWhile (fun ch => ch = '-')).reverse.dropWhile
        (fun ch => ch = '-')) = []
    · rw [hne]
      simp
    · rw [getLast_dropWhile _ hne, List.getLast?_reverse]
      intro hc
      have := head_dropWhile_not cs hc
      simp at this
  · rw [List.getLast?_reverse]
    intro hc
    have := head_dropWhile_not _ hc
    simp at this

theorem squash_all_sep_true : ∀ (cs : List Char), (∀ ch ∈ cs, isSlugChar ch = false) →
    squashRunsAux cs true = [] := by
  intro cs
  induction cs with
  | nil => intro _; rfl
  | cons c rest ih =>
    intro h
    have hc : ¬ (isSlugChar c = true) := by
      rw [h c (List.mem_cons_self _ _)]
      exact Bool.false_ne_true
    rw [squashRunsAux, if_neg hc, if_pos rfl]
    exact ih (fun ch hch => h ch (List.mem_cons_of_mem _ hch))

theorem strip_squash_all_sep {cs : List Char} (h : ∀ ch ∈ cs, isSlugChar ch = false) :
    stripDashes (squashRunsAux cs false) = [] := by
  cases cs with
  | nil => rfl
  | cons c rest =>
    have hc : ¬ (isSlugChar c = true) := by
      rw [h c (List.mem_cons_self _ _)]
      exact Bool.false_ne_true
    rw [squashRunsAux, if_neg hc]
    simp only [Bool.false_eq_true, if_false]
    rw [squash_all_sep_true rest (fun ch hch => h ch (List.mem_cons_of_mem _ hch))]
    decide

/-- C8: `_zone_identifier` is the deterministic slug of the lowercased
"country-zone" base: it maps the spec's example to "uganda-kampala-north",
yields the fallback "zone" whenever the base has no alphanumeric character
(punctuation-only inputs included), and in general returns a nonempty string
of lowercase alphanumerics and single separators with no leading or trailing
hyphen. -/
theorem c8_zone_identifier_slug :
    zone_identifier (some "Uganda") (some "Kampala North") = "uganda-kampala-north"
      ∧ zone_identifier (some "***") (some "!?!") = "zone"
      ∧ (∀ c z, zone_identifier c z ≠ "")
      ∧ (∀ c z ch, ch ∈ (zone_identifier c z).toList → isSlugChar ch = true ∨ ch = '-')
      ∧ (∀ c z, (zone_identifier c z).toList.head? ≠ some '-'
          ∧ (zone_identifier c z).toList.getLast? ≠ some '-')
      ∧ (∀ c z, (∀ ch ∈ (slugBase c z).toList, isSlugChar ch = false) →
          zone_identifier c z = "zone") := by
  refine ⟨by decide, by decide, ?_, ?_, ?_, ?_⟩
  · intro c z
    simp only [zone_identifier]
    split
    · decide
    · assumption
  · intro c z ch h
    simp only [zone_identifier] at h
    split at h
    · have h4 : ch = 'z' ∨ ch = 'o' ∨ ch = 'n' ∨ ch = 'e' := by simpa using h
      rcases h4 with rfl | rfl | rfl | rfl <;> exact Or.inl (by decide)
    · have h2 : ch ∈ stripDashes (squashRunsAux (slugBase c z).toList false) := h
      exact mem_squashRuns _ false ch (mem_stripDashes h2)
  · intro c z
    simp only [zone_identifier]
    split
    · exact ⟨by decide, by decide⟩
    · exact stripDashes_edges _
  · intro c z hall
    simp only [zone_identifier]
    rw [strip_squash_all_sep hall]
    decide

theorem c8_slug_witness :
    zone_identifier (some "--") (some "..") = "zone" :=
  c8_zone_identifier_slug.2.2.2.2.2 (some "--") (some "..") (by decide)

/-! Helper lemmas for the outer merge (C9). -/

theorem lookup_map_graph (f : String → Cell) :
    ∀ (lc : List String) (c : String), c ∈ lc →
      (lc.map (fun c2 => (c2, f c2))).lookup c = some (f c) := by
  intro lc
  induction lc with
  | nil => intro c h; cases h
  | cons a l ih =>
    intro c h
    by_cases hca : c = a
    · subst hca
      simp [List.lookup]
    · have hb : (c == a) = false := beq_eq_false_iff_ne.mpr hca
      rcases List.mem_cons.mp h with h1 | h2
      · exact absurd h1 hca
      · simpa [List.lookup, hb] using ih c h2

theorem cellVal_combineRow_left {lc rcNonKey : List String} {lr : Row}
    {rrOpt : Option Row} {c : String} (hc : c ∈ lc) :
    cellVal (combineRow lc rcNonKey lr rrOpt) c = cellVal lr c := by
  unfold combineRow cellVal
  rw [lookup_append, lookup_map_graph _ lc c hc]
  rfl

theorem cellVal_rightOnlyRow {lc rcNonKey keys : List String} {rr : Row} {c : String}
    (hc : c ∈ lc) (hk : c ∉ keys) :
    cellVal (rightOnlyRow lc rcNonKey keys rr) c = Cell.na := by
  unfold rightOnlyRow cellVal
  rw [lookup_append, lookup_map_graph _ lc c hc]
  simp [hk]

theorem append_dup_eq {a b : String} (h : a ++ "_dup" = b ++ "_dup") : a = b := by
  have hd := congrArg String.data h
  rw [String.data_append, String.data_append] at hd
  have h2 := (List.append_inj' hd rfl).1
  cases a
  cases b
  exact congrArg String.mk h2

theorem country_mem_mergeKeys {lc rc : List String} (hl : "country" ∈ lc)
    (hr : "country" ∈ rc) : "country" ∈ mergeKeysOf lc rc := by
  unfold mergeKeysOf
  have hmem : "country" ∈ (["country", "zone"]).filter (fun c => (c ∈ lc) ∧ (c ∈ rc)) := by
    refine List.mem_filter.mpr ⟨by decide, ?_⟩
    simp [hl, hr]
  have hne : ¬ ((["country", "zone"]).filter
      (fun c => (c ∈ lc) ∧ (c ∈ rc))).isEmpty = true := by
    rw [List.isEmpty_iff]
    exact List.ne_nil_of_mem hmem
  rw [if_neg hne]
  exact hmem

theorem mergeOuter_some {L R T : Table} (h : mergeOuter L R = some T) :
    T.cols = L.cols ++ (R.cols.filter (fun c => c ∉ mergeKeysOf L.cols R.cols)).map
        (fun c => if c ∈ L.cols then c ++ "_dup" else c)
      ∧ ∀ r ∈ T.rows,
        (∃ lr ∈ L.rows, ∃ rrOpt, r = combineRow L.cols
          (R.cols.filter (fun c => c ∉ mergeKeysOf L.cols R.cols)) lr rrOpt)
        ∨ (∃ rr, r = rightOnlyRow L.cols
            (R.cols.filter (fun c => c ∉ mergeKeysOf L.cols R.cols))
            (mergeKeysOf L.cols R.cols) rr) := by
  simp only [mergeOuter] at h
  split at h
  · cases h
  · have hT := Option.some.inj h
    constructor
    · rw [← hT]
    · intro r hr
      rw [← hT] at hr
      rcases List.mem_append.mp hr with h1 | h2
      · obtain ⟨block, hblock, hrb⟩ := List.mem_flatten.mp h1
        obtain ⟨lr, hlr, hbeq⟩ := List.mem_map.mp hblock
        rw [← hbeq] at hrb
        split at hrb
        · rcases List.mem_singleton.mp hrb with rfl
          exact Or.inl ⟨lr, hlr, none, rfl⟩
        · obtain ⟨rr, _, hcr⟩ := List.mem_map.mp hrb
          exact Or.inl ⟨lr, hlr, some rr, hcr.symm⟩
      · obtain ⟨rr, _, hcr⟩ := List.mem_map.mp h2
        exact Or.inr ⟨rr, hcr.symm⟩

theorem dup_not_mem_mergeOuter_cols {L R T : Table} (h : mergeOuter L R = some T)
    (hdL : "country_dup" ∉ L.cols) (hdR : "country_dup" ∉ R.cols) :
    "country_dup" ∉ T.cols := by
  rw [(mergeOuter_some h).1]
  intro hmem
  rcases List.mem_append.mp hmem with h1 | h2
  · exact hdL h1
  · obtain ⟨c0, hc0, heq⟩ := List.mem_map.mp h2
    have hc0R : c0 ∈ R.cols := (List.mem_filter.mp hc0).1
    have hc0nk : c0 ∉ mergeKeysOf L.cols R.cols := by
      have := (List.mem_filter.mp hc0).2
      simpa using this
    by_cases hc0L : c0 ∈ L.cols
    · rw [if_pos hc0L] at heq
      have hc0c : c0 = "country" := append_dup_eq heq
      subst hc0c
      exact hc0nk (country_mem_mergeKeys hc0L hc0R)
    · rw [if_neg hc0L] at heq
      subst heq
      exact hdR hc0R

/-- C9 counterexample: a non-key column "extra" present on both sides of the
merge is not reconciled — the merged row keeps the left side's null under
"extra" (the right side's value 5 lands in "extra_dup"), instead of filling
the null with the right side's value as the claim states. -/
theorem c9_counterexample_no_fill_for_shared_column :
    mergeStep leftShared rightShared
        = some (Table.mk ["zone", "extra", "extra_dup"] [mergedSharedRow])
      ∧ cellVal mergedSharedRow "extra" = Cell.na
      ∧ cellVal [("zone", Cell.str "a"), ("extra", Cell.num 5)] "extra" = Cell.num 5
      ∧ Cell.na ≠ Cell.num 5 :=
  ⟨by decide, by decide, by decide, by decide⟩

/-- C9 (amended): the outer merge does not reconcile same-named non-key
columns.  Such a column keeps both copies — the left values under the
original name (nulls included, never filled from the right) and the right
values under the `_dup` suffix — and, provided neither input already carries
a literal `country_dup` column, no `country_dup` column can arise (a
`country` column present on both sides is always a merge key), so the
`country` fill-if-null branch never executes. -/
theorem c9_amended_merge_keeps_left_values (L R T : Table)
    (hok : mergeStep L R = some T)
    (hdL : "country_dup" ∉ L.cols) (hdR : "country_dup" ∉ R.cols) :
    "country_dup" ∉ T.cols
      ∧ ∀ c, c ∈ L.cols → c ∈ R.cols → c ∉ mergeKeysOf L.cols R.cols →
          (c ∈ T.cols ∧ (c ++ "_dup") ∈ T.cols
            ∧ ∀ r ∈ T.rows, cellVal r c = Cell.na
                ∨ ∃ lr ∈ L.rows, cellVal r c = cellVal lr c) := by
  simp only [mergeStep, Option.bind_eq_bind, Option.bind_eq_some] at hok
  obtain ⟨t, hmo, hbr⟩ := hok
  have hdup := dup_not_mem_mergeOuter_cols hmo hdL hdR
  have hTt : T = t := by
    rw [if_neg (fun hc => hdup hc.1)] at hbr
    exact (Option.some.inj hbr).symm
  subst hTt
  obtain ⟨hcols, hrows⟩ := mergeOuter_some hmo
  refine ⟨hdup, ?_⟩
  intro c hcL hcR hck
  have hcfil : c ∈ R.cols.filter (fun c2 => c2 ∉ mergeKeysOf L.cols R.cols) := by
    refine List.mem_filter.mpr ⟨hcR, ?_⟩
    simpa using hck
  refine ⟨?_, ?_, ?_⟩
  · rw [hcols]
    exact List.mem_append_left _ hcL
  · rw [hcols]
    refine List.mem_append_right _ ?_
    refine List.mem_map.mpr ⟨c, hcfil, ?_⟩
    rw [if_pos hcL]
  · intro r hr
    rcases hrows r hr with ⟨lr, hlr, rrOpt, hreq⟩ | ⟨rr, hreq⟩
    · subst hreq
      exact Or.inr ⟨lr, hlr, cellVal_combineRow_left hcL⟩
    · subst hreq
      exact Or.inl (cellVal_rightOnlyRow hcL hck)

theorem c9_merge_witness :
    "country_dup" ∉ (Table.mk ["zone", "extra", "extra_dup"] [mergedSharedRow]).cols
      ∧ ∀ c, c ∈ leftShared.cols → c ∈ rightShared.cols →
          c ∉ mergeKeysOf leftShared.cols rightShared.cols →
          (c ∈ (Table.mk ["zone", "extra", "extra_dup"] [mergedSharedRow]).cols
            ∧ (c ++ "_dup") ∈ (Table.mk ["zone", "extra", "extra_dup"] [mergedSharedRow]).cols
            ∧ ∀ r ∈ (Table.mk ["zone", "extra", "extra_dup"] [mergedSharedRow]).rows,
                cellVal r c = Cell.na
                  ∨ ∃ lr ∈ leftShared.rows, cellVal r c = cellVal lr c) :=
  c9_amended_merge_keeps_left_values leftShared rightShared
    (Table.mk ["zone", "extra", "extra_dup"] [mergedSharedRow])
    (by decide) (by decide) (by decide)

end UHN
